import Mathlib

/-!
# Verification of the smp-resolver-ng resolution pipeline

A shallow embedding of the Peppol SMP resolver library `smp-resolver-ng`
(TypeScript) into Lean 4, with theorems settling the frozen specification
claims about it.

Conventions of the embedding:

* Machine integers are `Nat` with explicit `% 2^32` where JavaScript's 32-bit
  semantics matter.
* Strings are Lean `String`s; character-level work is done on `String.data`
  (`List Char`).
* Throwing code is embedded in `Except String`; the thrown `Error.message`
  is the carried string.
* Network and external-library collaborators (the DNS answer, the HTTP
  responses, the XML parser, the certificate parser, the code-list lookup)
  are supplied by an `Env` record of functions; all theorems about the
  orchestrator quantify over every such environment.
* Pure JavaScript builtins used by the code (SHA-256, UTF-8 encoding,
  `String.prototype.split`, the WHATWG `URL` parser on absolute http(s)
  URLs, `encodeURIComponent`, regexp matches used by the code) are embedded
  concretely below.
-/

namespace SmpResolver

/-! ## 32-bit arithmetic helpers (JavaScript `>>>`, `<<`, `&`, `|`, `^`) -/

/-- `2^32`, the modulus of JavaScript's 32-bit bitwise world. -/
def m32 : Nat := 4294967296

/-- Addition modulo `2^32`. -/
def add32 (a b : Nat) : Nat := (a + b) % m32

/-- Right rotation of a 32-bit word. -/
def rotr32 (n x : Nat) : Nat := ((x >>> n) ||| (x <<< (32 - n))) % m32

/-! ## SHA-256 (model of node:crypto `createHash('sha256')`)

A direct transcription of FIPS 180-4 over byte lists, used by
`hashParticipantId` in `src/sml/participant-hash.ts`. -/

/-- SHA-256 `Ch` function. -/
def shaCh (e f g : Nat) : Nat := (e &&& f) ^^^ ((e ^^^ 0xffffffff) &&& g)

/-- SHA-256 `Maj` function. -/
def shaMaj (a b c : Nat) : Nat := (a &&& b) ^^^ (a &&& c) ^^^ (b &&& c)

/-- SHA-256 big sigma 0. -/
def bsig0 (x : Nat) : Nat := rotr32 2 x ^^^ rotr32 13 x ^^^ rotr32 22 x

/-- SHA-256 big sigma 1. -/
def bsig1 (x : Nat) : Nat := rotr32 6 x ^^^ rotr32 11 x ^^^ rotr32 25 x

/-- SHA-256 small sigma 0. -/
def ssig0 (x : Nat) : Nat := rotr32 7 x ^^^ rotr32 18 x ^^^ (x >>> 3)

/-- SHA-256 small sigma 1. -/
def ssig1 (x : Nat) : Nat := rotr32 17 x ^^^ rotr32 19 x ^^^ (x >>> 10)

/-- The 64 SHA-256 round constants (FIPS 180-4 §4.2.2, in decimal). -/
def sha256K : List Nat :=
  [1116352408, 1899447441, 3049323471, 3921009573, 961987163, 1508970993,
   2453635748, 2870763221, 3624381080, 310598401, 607225278, 1426881987,
   1925078388, 2162078206, 2614888103, 3248222580, 3835390401, 4022224774,
   264347078, 604807628, 770255983, 1249150122, 1555081692, 1996064986,
   2554220882, 2821834349, 2952996808, 3210313671, 3336571891, 3584528711,
   113926993, 338241895, 666307205, 773529912, 1294757372, 1396182291,
   1695183700, 1986661051, 2177026350, 2456956037, 2730485921, 2820302411,
   3259730800, 3345764771, 3516065817, 3600352804, 4094571909, 275423344,
   430227734, 506948616, 659060556, 883997877, 958139571, 1322822218,
   1537002063, 1747873779, 1955562222, 2024104815, 2227730452, 2361852424,
   2428436474, 2756734187, 3204031479, 3329325298]

/-- The SHA-256 working state: eight 32-bit words. -/
structure H8 where
  a : Nat
  b : Nat
  c : Nat
  d : Nat
  e : Nat
  f : Nat
  g : Nat
  h : Nat
deriving Repr, DecidableEq

/-- SHA-256 initial hash value (FIPS 180-4 §5.3.3, in decimal). -/
def sha256Init : H8 :=
  ⟨1779033703, 3144134277, 1013904242, 2773480762,
   1359893119, 2600822924, 528734635, 1541459225⟩

/-- One SHA-256 compression round, consuming one `(k, w)` pair. -/
def sha256Round (st : H8) (kw : Nat × Nat) : H8 :=
  let t1 := (st.h + bsig1 st.e + shaCh st.e st.f st.g + kw.1 + kw.2) % m32
  let t2 := (bsig0 st.a + shaMaj st.a st.b st.c) % m32
  ⟨(t1 + t2) % m32, st.a, st.b, st.c, (st.d + t1) % m32, st.e, st.f, st.g⟩

/-- Assemble big-endian 32-bit words from groups of four bytes. -/
def bytesToWords : List Nat → List Nat
  | b0 :: b1 :: b2 :: b3 :: rest =>
      ((b0 <<< 24) ||| (b1 <<< 16) ||| (b2 <<< 8) ||| b3) :: bytesToWords rest
  | _ => []

/-- Extend the 16-word message block by `k` further schedule words. -/
def schedRounds : Nat → List Nat → List Nat
  | 0, w => w
  | k + 1, w =>
      let n := w.length
      let next := (ssig1 (w.getD (n - 2) 0) + w.getD (n - 7) 0 +
                   ssig0 (w.getD (n - 15) 0) + w.getD (n - 16) 0) % m32
      schedRounds k (w ++ [next])

/-- Compress a single 64-byte block into the running hash. -/
def sha256Block (hv : H8) (block : List Nat) : H8 :=
  let w := schedRounds 48 (bytesToWords block)
  let st := (sha256K.zip w).foldl sha256Round hv
  ⟨add32 hv.a st.a, add32 hv.b st.b, add32 hv.c st.c, add32 hv.d st.d,
   add32 hv.e st.e, add32 hv.f st.f, add32 hv.g st.g, add32 hv.h st.h⟩

/-- SHA-256 padding: `0x80`, zeros, then the bit length as eight
big-endian bytes, reaching a multiple of 64 bytes. -/
def sha256Pad (msg : List Nat) : List Nat :=
  let len := msg.length
  let zeros := (119 - len % 64) % 64
  let bitLen := 8 * len
  msg ++ 0x80 :: List.replicate zeros 0 ++
    [(bitLen >>> 56) &&& 255, (bitLen >>> 48) &&& 255, (bitLen >>> 40) &&& 255,
     (bitLen >>> 32) &&& 255, (bitLen >>> 24) &&& 255, (bitLen >>> 16) &&& 255,
     (bitLen >>> 8) &&& 255, bitLen &&& 255]

/-- Split a list into chunks of `n + 1` elements, with structural fuel
(`fuel` is an upper bound on the list length, so the fuel never runs out
at the call sites below). -/
def chunkGo (n : Nat) : Nat → List α → List (List α)
  | _, [] => []
  | 0, _ :: _ => []
  | fuel + 1, x :: xs => (x :: xs.take n) :: chunkGo n fuel (xs.drop n)

/-- Split a list into chunks of `n + 1` elements. -/
def chunkSucc (n : Nat) (l : List α) : List (List α) := chunkGo n l.length l

/-- The four big-endian bytes of a 32-bit word. -/
def wordBytes (w : Nat) : List Nat :=
  [(w >>> 24) &&& 255, (w >>> 16) &&& 255, (w >>> 8) &&& 255, w &&& 255]

/-- SHA-256 of a byte list, as a list of 32 bytes. -/
def sha256 (msg : List Nat) : List Nat :=
  let hv := (chunkSucc 63 (sha256Pad msg)).foldl sha256Block sha256Init
  wordBytes hv.a ++ wordBytes hv.b ++ wordBytes hv.c ++ wordBytes hv.d ++
    wordBytes hv.e ++ wordBytes hv.f ++ wordBytes hv.g ++ wordBytes hv.h

/-! ## UTF-8 encoding (model of Buffer / `update(..., 'utf8')`) -/

/-- UTF-8 encoding of a single scalar value. -/
def utf8Char (c : Char) : List Nat :=
  let n := c.toNat
  if n < 0x80 then [n]
  else if n < 0x800 then
    [0xC0 ||| (n >>> 6), 0x80 ||| (n &&& 0x3F)]
  else if n < 0x10000 then
    [0xE0 ||| (n >>> 12), 0x80 ||| ((n >>> 6) &&& 0x3F), 0x80 ||| (n &&& 0x3F)]
  else
    [0xF0 ||| (n >>> 18), 0x80 ||| ((n >>> 12) &&& 0x3F),
     0x80 ||| ((n >>> 6) &&& 0x3F), 0x80 ||| (n &&& 0x3F)]

/-- UTF-8 bytes of a string. -/
def utf8Bytes (s : String) : List Nat := s.data.flatMap utf8Char

/-! ## Base32 (transcription of `base32Encode` in
`src/sml/participant-hash.ts`) -/

/-- The RFC 4648 base32 alphabet used by the source. -/
def b32Alphabet : List Char := "ABCDEFGHIJKLMNOPQRSTUVWXYZ234567".data

/-- The inner `while (bits >= 5)` loop of `base32Encode`: emit one alphabet
character per complete 5-bit group held in `value` (the argument is the
current `bits`; the emitted character uses shift `bits - 5`). -/
def b32EmitWhile (value : Nat) : Nat → List Char
  | n + 5 => b32Alphabet.getD ((value >>> n) &&& 0x1f) 'A' :: b32EmitWhile value n
  | _ => []

/-- The byte loop of `base32Encode`: shift each byte into `value`
(32-bit truncated, as in JavaScript), emitting 5-bit groups.  Returns the
emitted characters together with the final `(value, bits)` pair. -/
def b32Loop : List Nat → Nat → Nat → List Char × Nat × Nat
  | [], value, bits => ([], value, bits)
  | b :: bs, value, bits =>
      let v := ((value <<< 8) ||| b) % m32
      let em := b32EmitWhile v (bits + 8)
      let (rest, vf, bf) := b32Loop bs v ((bits + 8) % 5)
      (em ++ rest, vf, bf)

/-- `while (result.length % 8 !== 0) result += '='` -/
def padTo8 (l : List Char) : List Char :=
  l ++ List.replicate ((8 - l.length % 8) % 8) '='

/-- `base32Encode` from `src/sml/participant-hash.ts`: RFC 4648 base32 with
padding, via the source's `(value, bits)` accumulator loop. -/
def base32Encode (buffer : List Nat) : List Char :=
  let (chars, value, bits) := b32Loop buffer 0 0
  let withTail :=
    if 0 < bits then
      chars ++ [b32Alphabet.getD ((value <<< (5 - bits)) &&& 0x1f) 'A']
    else chars
  padTo8 withTail

/-- The final-character branch of `base32Encode`
(`if (bits > 0) result += alphabet[(value << (5 - bits)) & 31]`),
as a function of the loop's final `(value, bits)` pair. -/
def b32Tail (vb : Nat × Nat) : List Char :=
  if 0 < vb.2 then [b32Alphabet.getD ((vb.1 <<< (5 - vb.2)) &&& 0x1f) 'A'] else []

/-- Spec side (RFC 4648): the eight bits of a byte, most significant
first. -/
def byteBits (b : Nat) : List Nat :=
  [(b >>> 7) &&& 1, (b >>> 6) &&& 1, (b >>> 5) &&& 1, (b >>> 4) &&& 1,
   (b >>> 3) &&& 1, (b >>> 2) &&& 1, (b >>> 1) &&& 1, b &&& 1]

/-- Spec side: the value of a bit group, most significant bit first. -/
def bitsVal (g : List Nat) : Nat := g.foldl (fun a b => 2 * a + b) 0

/-- Spec side: the character of a (possibly short, zero-extended) 5-bit
group. -/
def specB32Char (g : List Nat) : Char :=
  b32Alphabet.getD (bitsVal g <<< (5 - g.length)) 'A'

/-- RFC 4648 base32 from the spec's words: concatenate the bits of the
bytes, split into 5-bit groups (the last zero-padded on the right), map
each group through the alphabet, then pad with `'='` to a multiple of
eight characters. -/
def specBase32 (bytes : List Nat) : List Char :=
  padTo8 ((chunkSucc 4 (bytes.flatMap byteBits)).map specB32Char)

/-! ## Lowercasing and padding strip -/

/-- ASCII lowercasing of one character (model of `toLowerCase` on the
base32 range `A-Z2-7=`). -/
def asciiLowerChar (c : Char) : Char :=
  if 'A' ≤ c ∧ c ≤ 'Z' then Char.ofNat (c.toNat + 32) else c

/-- ASCII lowercasing of a character list. -/
def asciiLower (l : List Char) : List Char := l.map asciiLowerChar

/-- `replace(/=+$/, '')`: drop every trailing `'='`. -/
def stripTrailingEq (l : List Char) : List Char :=
  (l.reverse.dropWhile (· == '=')).reverse

/-- `hashParticipantId` from `src/sml/participant-hash.ts`: SHA-256 of
`scheme:value`, base32, lowercased, padding stripped. -/
def hashParticipantId (participantId scheme : String) : String :=
  let canonical := scheme ++ ":" ++ participantId
  ⟨stripTrailingEq (asciiLower (base32Encode (sha256 (utf8Bytes canonical))))⟩

/-! ## String helpers (models of the JavaScript string builtins used) -/

/-- ASCII alphanumeric (the character class `[a-zA-Z0-9]`). -/
def isAlnum (c : Char) : Bool :=
  ('a' ≤ c && c ≤ 'z') || ('A' ≤ c && c ≤ 'Z') || ('0' ≤ c && c ≤ '9')

/-- ASCII letter. -/
def isAlpha (c : Char) : Bool := ('a' ≤ c && c ≤ 'z') || ('A' ≤ c && c ≤ 'Z')

/-- Split at the first occurrence of `c` (model of `indexOf` + `substring`):
`none` when `c` does not occur, otherwise the parts strictly before and
after the first occurrence. -/
def splitFirst (c : Char) : List Char → Option (List Char × List Char)
  | [] => none
  | x :: xs =>
      if x = c then some ([], xs)
      else (splitFirst c xs).map (fun p => (x :: p.1, p.2))

/-- Model of JavaScript `String.prototype.split` with a one-character
separator: always returns at least one (possibly empty) group. -/
def jsSplitChars (sep : Char) : List Char → List (List Char)
  | [] => [[]]
  | c :: cs =>
      if c = sep then [] :: jsSplitChars sep cs
      else
        match jsSplitChars sep cs with
        | [] => [[c]]
        | g :: gs => (c :: g) :: gs

/-- `String.prototype.split(sep)` as strings. -/
def jsSplit (sep : Char) (s : String) : List String :=
  (jsSplitChars sep s.data).map (fun l => ⟨l⟩)

/-- Does `pat` occur as a contiguous segment of `l`? -/
def listHasInfix (pat : List Char) : List Char → Bool
  | [] => pat.isEmpty
  | l@(_ :: xs) => pat.isPrefixOf l || listHasInfix pat xs

/-- `a.includes(b)` on strings. -/
def strIncludes (s pat : String) : Bool := listHasInfix pat.data s.data

/-- `a.startsWith(b)` on strings. -/
def strStartsWith (s pat : String) : Bool := pat.data.isPrefixOf s.data

/-- `a.endsWith(b)` for the one-character suffix used by the source. -/
def strEndsWithSlash (s : String) : Bool := s.data.getLast? == some '/'

/-- Model of `String.prototype.replace` with a plain (non-regexp) search
string: replace the first occurrence only. -/
def replaceFirstChars (l pat sub : List Char) : List Char :=
  match l with
  | [] => []
  | x :: xs =>
      if pat.isPrefixOf l then sub ++ l.drop pat.length
      else x :: replaceFirstChars xs pat sub

/-- `s.replace(pat, sub)` (plain search string, first occurrence). -/
def replaceFirst (s pat sub : String) : String :=
  ⟨replaceFirstChars s.data pat.data sub.data⟩

/-- The whitespace class of JavaScript `trim` (restricted to the code
points that can occur in the documents handled here). -/
def isJsSpace (c : Char) : Bool :=
  c = ' ' || c = '\t' || c = '\n' || c = '\r' ||
  c = '\x0b' || c = '\x0c' || c = '\u00A0' || c = '\uFEFF'

/-- `s.trim()`. -/
def jsTrimChars (l : List Char) : List Char :=
  ((l.dropWhile isJsSpace).reverse.dropWhile isJsSpace).reverse

/-- `s.trim().startsWith('<')`, the XML sniff used by the business-card
probe. -/
def trimStartsWithLt (s : String) : Bool :=
  match jsTrimChars s.data with
  | '<' :: _ => true
  | _ => false

/-- ASCII lowercase of a string (model of `toLowerCase` on the ASCII
range handled by the source). -/
def asciiLowerStr (s : String) : String := ⟨asciiLower s.data⟩

/-! ## Identifier canonicalizer (`src/sml/participant-hash.ts`) -/

/-- Tail of the DNS-label regexp `^[a-zA-Z0-9]([a-zA-Z0-9-]*[a-zA-Z0-9])?$`:
checks `[a-zA-Z0-9-]*[a-zA-Z0-9]` on a nonempty tail. -/
def dnsLabelRest : List Char → Bool
  | [] => false
  | [c] => isAlnum c
  | c :: rest => (isAlnum c || c == '-') && dnsLabelRest rest

/-- The DNS-label regexp `^[a-zA-Z0-9]([a-zA-Z0-9-]*[a-zA-Z0-9])?$` as a
whole-string predicate. -/
def dnsLabelRegex : List Char → Bool
  | [] => false
  | [c] => isAlnum c
  | c :: rest => isAlnum c && dnsLabelRest rest

/-- `validateParticipantId` from `src/sml/participant-hash.ts`. -/
def validateParticipantId (scheme value : String) : Bool :=
  if !(!scheme.data.isEmpty && scheme.data.all isAlnum) then false
  else if value.data.isEmpty then false
  else dnsLabelRegex value.data

/-- `parseParticipantId` from `src/sml/participant-hash.ts`: split at the
first `':'`; `none` when there is no `':'` or either side is empty. -/
def parseParticipantId (participantId : String) : Option (String × String) :=
  match splitFirst ':' participantId.data with
  | none => none
  | some (pre, suf) =>
      if pre.isEmpty || suf.isEmpty then none
      else some (⟨pre⟩, ⟨suf⟩)

/-! ## WHATWG `URL` model

A model of Node's `new URL(...)` restricted to the absolute URL forms the
resolver manipulates (http/https and other simple scheme-prefixed
strings).  Parse failure (`none`) models the constructor throwing.  Field
contents follow Node: `protocol` keeps the trailing `':'`; `search` and
`hash` are empty strings unless the query/fragment is nonempty. -/

structure Url where
  protocol : String
  username : String
  password : String
  hostname : String
  port : String
  pathname : String
  search : String
  frag : String
deriving DecidableEq, Repr

/-- Characters allowed after the first character of a URL scheme. -/
def isSchemeChar (c : Char) : Bool :=
  isAlnum c || c = '+' || c = '-' || c = '.'

/-- Code points forbidden inside a host. -/
def isForbiddenHostChar (c : Char) : Bool :=
  c.toNat < 0x21 || c = '#' || c = '/' || c = ':' || c = '<' || c = '>' ||
  c = '?' || c = '@' || c = '[' || c = ']' || c = '\\' || c = '^' || c = '|'

/-- The special schemes whose authority is parsed even without `//`. -/
def isSpecialScheme (s : List Char) : Bool :=
  s = "http".data || s = "https".data || s = "ws".data ||
  s = "wss".data || s = "ftp".data

/-- C0 control or space (stripped at the ends of URL input). -/
def isC0OrSpace (c : Char) : Bool := c.toNat ≤ 0x20

/-- ASCII tab or newline (stripped everywhere in URL input). -/
def isTabOrNl (c : Char) : Bool := c = '\t' || c = '\n' || c = '\r'

/-- Strip leading and trailing C0 controls and spaces from URL input. -/
def jsTrimC0 (l : List Char) : List Char :=
  ((l.dropWhile isC0OrSpace).reverse.dropWhile isC0OrSpace).reverse

/-- Split query and fragment off a path-and-beyond remainder:
returns `(path, query, fragment)` (query without `'?'`, fragment without
`'#'`; `none` when the delimiter is absent). -/
def splitPathQueryFrag (l : List Char) : List Char × Option (List Char) × Option (List Char) :=
  let beforeHash := l.takeWhile (· ≠ '#')
  let hashPart := l.dropWhile (· ≠ '#')
  let path := beforeHash.takeWhile (· ≠ '?')
  let queryPart := beforeHash.dropWhile (· ≠ '?')
  (path,
   match queryPart with
   | '?' :: q => some q
   | _ => none,
   match hashPart with
   | '#' :: f => some f
   | _ => none)

/-- Parse `userinfo@host:port` (the authority after userinfo split). -/
def parseHostPort (hostPort : List Char) : Option (String × String) :=
  if hostPort.isEmpty then none
  else if hostPort.head? = some '[' then
    -- bracketed IPv6 literal: host up to and including ']'
    let inside := hostPort.takeWhile (· ≠ ']')
    match hostPort.dropWhile (· ≠ ']') with
    | [] => none
    | [_] => some (⟨inside ++ [']']⟩, "")
    | _ :: c :: p =>
        if c = ':' && p.all (·.isDigit) then some (⟨inside ++ [']']⟩, ⟨p⟩)
        else none
  else
    let host := hostPort.takeWhile (· ≠ ':')
    let rest := hostPort.dropWhile (· ≠ ':')
    if host.isEmpty then none
    else if host.any isForbiddenHostChar then none
    else
      let hostLc := asciiLower host
      match rest with
      | [] => some (⟨hostLc⟩, "")
      | c :: p =>
          if c = ':' && p.all (·.isDigit) && p.length ≤ 5 then some (⟨hostLc⟩, ⟨p⟩)
          else none

/-- Parse an authority chunk `user:pass@host:port`. -/
def parseAuthority (auth : List Char) : Option (String × String × String × String) :=
  let hostPort := (auth.reverse.takeWhile (· ≠ '@')).reverse
  let userinfo :=
    if hostPort.length = auth.length then []
    else auth.take (auth.length - hostPort.length - 1)
  let username := userinfo.takeWhile (· ≠ ':')
  let password := userinfo.drop (username.length + 1)
  (parseHostPort hostPort).map (fun hp => (⟨username⟩, ⟨password⟩, hp.1, hp.2))

/-- Is the character a `/` or `\` (skipped before a special-scheme
authority)? -/
def isSlashy (c : Char) : Bool := c = '/' || c = '\\'

/-- May the character appear in the authority chunk (before the first
path/query/fragment delimiter)? -/
def isAuthChar (c : Char) : Bool := c ≠ '/' && c ≠ '\\' && c ≠ '?' && c ≠ '#'

/-- Input sanitization of the URL parser: remove every tab and newline,
strip leading and trailing C0 controls and spaces. -/
def urlSanitize (l : List Char) : List Char :=
  jsTrimC0 (l.filter (fun c => !isTabOrNl c))

/-- The `search` field from an optional query. -/
def mkSearch (query : Option (List Char)) : String :=
  match query with
  | some q => if q.isEmpty then "" else ⟨'?' :: q⟩
  | none => ""

/-- The `hash` field from an optional fragment. -/
def mkFrag (fragment : Option (List Char)) : String :=
  match fragment with
  | some f => if f.isEmpty then "" else ⟨'#' :: f⟩
  | none => ""

/-- Build the `Url` of a special-scheme parse from the lowered scheme, the
authority parts and the path/query/fragment region. -/
def mkSpecialUrl (scheme : List Char) (a : String × String × String × String)
    (pqf : List Char) : Url :=
  let (path, query, fragment) := splitPathQueryFrag pqf
  { protocol := ⟨scheme ++ [':']⟩
    username := a.1
    password := a.2.1
    hostname := a.2.2.1
    port := a.2.2.2
    pathname := if path.isEmpty then "/" else
      ⟨path.map (fun c => if c = '\\' then '/' else c)⟩
    search := mkSearch query
    frag := mkFrag fragment }

/-- Build the `Url` of a non-special-scheme parse (opaque path). -/
def mkOpaqueUrl (scheme : List Char) (rem : List Char) : Url :=
  let (path, query, fragment) := splitPathQueryFrag rem
  { protocol := ⟨scheme ++ [':']⟩
    username := ""
    password := ""
    hostname := ""
    port := ""
    pathname := ⟨path⟩
    search := mkSearch query
    frag := mkFrag fragment }

/-- The URL parser on sanitized character lists. -/
def urlParseCore : List Char → Option Url
  | [] => none
  | c0 :: rest =>
      if !isAlpha c0 then none
      else
        let body := rest.takeWhile isSchemeChar
        let after := rest.dropWhile isSchemeChar
        match after with
        | [] => none
        | c1 :: rem =>
            if c1 = ':' then
              let scheme := asciiLower (c0 :: body)
              if isSpecialScheme scheme then
                let rem2 := rem.dropWhile isSlashy
                let auth := rem2.takeWhile isAuthChar
                let pqf := rem2.dropWhile isAuthChar
                match parseAuthority auth with
                | none => none
                | some a => some (mkSpecialUrl scheme a pqf)
              else some (mkOpaqueUrl scheme rem)
            else none

/-- `new URL(s)` (absolute, no base).  `none` models a thrown `TypeError`. -/
def urlParse (s : String) : Option Url :=
  urlParseCore (urlSanitize s.data)

/-! ## NAPTR records and SMP URL extraction
(`src/dns/naptr-resolver.ts` and `src/dns/doh-resolver.ts`) -/

/-- A NAPTR answer record as both resolvers produce it (name/type/class/ttl
are irrelevant to URL extraction and omitted). -/
structure DNSRecord where
  order : Nat
  preference : Nat
  flags : String
  service : String
  regexp : String
  replacement : String
deriving DecidableEq, Repr

/-- The sort comparator of `extractSMPUrl`: `order` ascending, then
`preference` ascending (true iff the comparator returns a negative
number). -/
def naptrLt (a b : DNSRecord) : Bool :=
  if a.order ≠ b.order then a.order < b.order else a.preference < b.preference

/-- Stable insertion: place `x` before the first element not strictly
below it, so that elements comparing equal keep their original order. -/
def insertStable (lt : α → α → Bool) (x : α) : List α → List α
  | [] => [x]
  | y :: ys => if lt y x then y :: insertStable lt x ys else x :: y :: ys

/-- Stable sort (model of `Array.prototype.sort`, stable per ES2019). -/
def sortStable (lt : α → α → Bool) : List α → List α
  | [] => []
  | x :: xs => insertStable lt x (sortStable lt xs)

/-- Spec-side selection (from the spec's words, for comparison with the
sort in the code): running leftmost minimum — a later element displaces
the incumbent only when strictly below it. -/
def lminBy (lt : α → α → Bool) : α → List α → α
  | m, [] => m
  | m, x :: xs => lminBy lt (if lt x m then x else m) xs

/-- Spec-side selected record: the first element among those minimal
under `lt` (document order breaks ties). -/
def leftmostMin (lt : α → α → Bool) : List α → Option α
  | [] => none
  | x :: xs => some (lminBy lt x xs)

/-- JavaScript line terminators (not matched by `.`). -/
def isLineTerm (c : Char) : Bool :=
  c = '\n' || c = '\r' || c = '\u2028' || c = '\u2029'

/-- Split a character list into maximal runs free of `p`-characters. -/
def splitOnPred (p : Char → Bool) : List Char → List (List Char)
  | [] => [[]]
  | c :: cs =>
      if p c then [] :: splitOnPred p cs
      else
        match splitOnPred p cs with
        | [] => [[c]]
        | g :: gs => (c :: g) :: gs

/-- The characters between the last two `'!'` of a run. -/
def betweenLastTwoBangs (run : List Char) : List Char :=
  match run.reverse.dropWhile (· ≠ '!') with
  | '!' :: rest => (rest.takeWhile (· ≠ '!')).reverse
  | _ => []

/-- Model of `regexp.match(/!(.*)!(.*)!/)`, group 2: the leftmost
match of the pattern exists iff some newline-free run of the subject holds
at least three `'!'`; backtracking greediness then puts group 2 between
the last two `'!'` of that run. -/
def bangMatch2 (s : List Char) : Option (List Char) :=
  match (splitOnPred isLineTerm s).find? (fun run => 3 ≤ run.count '!') with
  | some run => some (betweenLastTwoBangs run)
  | none => none

/-- The field checks of `isValidSMPUrl` on a parsed URL. -/
def isValidSMPUrlCore (u : Url) : Bool :=
  if u.protocol ≠ "https:" && u.protocol ≠ "http:" then false
  else if u.username ≠ "" || u.password ≠ "" then false
  else if u.search ≠ "" || u.frag ≠ "" then false
  else true

/-- `isValidSMPUrl` (identical in both resolvers): the string parses as a
URL whose protocol is http/https, with no userinfo, query or fragment. -/
def isValidSMPUrl (url : String) : Bool :=
  match urlParse url with
  | none => false
  | some u => isValidSMPUrlCore u

/-- Shared body of the two `extractSMPUrl` variants: filter to
`Meta:SMP` (case-insensitive), stable-sort by order/preference, parse the
first record's regexp, validate. -/
def extractSMPUrlCore (records : List DNSRecord) : Option String :=
  let smpRecords := records.filter (fun r => asciiLowerStr r.service == "meta:smp")
  match sortStable naptrLt smpRecords with
  | [] => none
  | first :: _ =>
      if first.regexp = "" then none
      else
        match bangMatch2 first.regexp.data with
        | none => none
        | some repl =>
            let url : String := ⟨repl⟩
            if isValidSMPUrl url then some url else none

/-- `extractSMPUrl` of `DoHResolver` (`src/dns/doh-resolver.ts`): no
trailing-slash handling. -/
def extractSMPUrlDoH (records : List DNSRecord) : Option String :=
  extractSMPUrlCore records

/-- `if (url.endsWith('/')) url = url.slice(0, -1)`. -/
def stripOneTrailingSlash (url : String) : String :=
  if strEndsWithSlash url then ⟨url.data.dropLast⟩ else url

/-- `extractSMPUrl` of `NAPTRResolver` (`src/dns/naptr-resolver.ts`, the
resolver used by `SMPResolver`): same as the DoH variant, then exactly one
trailing `'/'` removed from the validated URL. -/
def extractSMPUrlNaptr (records : List DNSRecord) : Option String :=
  (extractSMPUrlCore records).map stripOneTrailingSlash

/-! ## `encodeURIComponent` -/

/-- Uppercase hexadecimal digit. -/
def hexDigit (n : Nat) : Char := "0123456789ABCDEF".data.getD n '0'

/-- Characters `encodeURIComponent` leaves unescaped. -/
def isUriUnreserved (c : Char) : Bool :=
  isAlnum c || c = '-' || c = '_' || c = '.' || c = '!' || c = '~' ||
  c = '*' || c = '\'' || c = '(' || c = ')'

/-- `encodeURIComponent`: UTF-8 percent-encoding of everything outside the
unreserved set. -/
def encodeURIComponent (s : String) : String :=
  ⟨s.data.flatMap fun c =>
    if isUriUnreserved c then [c]
    else (utf8Char c).flatMap fun b => ['%', hexDigit (b >>> 4), hexDigit (b &&& 15)]⟩

/-! ## Resolver data model (`src/types/index.ts`, `src/resolver.ts`) -/

/-- A `(scheme, value)` identifier pair. -/
structure PidPair where
  scheme : String
  value : String
deriving DecidableEq, Repr

/-- Registration status of a participant. -/
inductive RegStatus
  | unregistered
  | parked
  | active
deriving DecidableEq, Repr

/-- One entry of `diagnostics.smpErrors`. -/
structure SmpError where
  url : String
  statusCode : Nat
  message : String
deriving DecidableEq, Repr

/-- The `diagnostics` object the resolver attaches (it only ever sets
`smpErrors`). -/
structure Diagnostics where
  smpErrors : List SmpError
deriving DecidableEq, Repr

/-- The endpoint descriptor the resolver builds from the first endpoint of
the first process of the first document type. -/
structure EndpointDetail where
  url : String
  transportProfile : String
  technicalContactUrl : Option String
  technicalInformationUrl : Option String
  serviceDescription : Option String
  certificate : Option String
  serviceActivationDate : Option String
  serviceExpirationDate : Option String
deriving DecidableEq, Repr

/-- An endpoint as produced by the XML parser collaborator. -/
structure ParsedEndpoint where
  transportProfile : String
  endpointUrl : String
  certificate : Option String
  serviceDescription : Option String
  technicalContactUrl : Option String
  technicalInformationUrl : Option String
  serviceActivationDate : Option String
  serviceExpirationDate : Option String
deriving DecidableEq, Repr

/-- A process as produced by the XML parser collaborator. -/
structure ParsedProcess where
  processIdentifier : PidPair
  endpoints : List ParsedEndpoint
deriving DecidableEq, Repr

/-- A document type as produced by the XML parser collaborator. -/
structure ParsedDocType where
  documentIdentifier : PidPair
  processes : List ParsedProcess
deriving DecidableEq, Repr

/-- `parseServiceMetadata`'s result (the fields the resolver reads). -/
structure ParsedSM where
  documentTypes : List ParsedDocType
deriving DecidableEq, Repr

/-- `parseServiceGroup`'s result. -/
structure ServiceGroupT where
  participantIdentifier : PidPair
  serviceReferences : List String
deriving DecidableEq, Repr

/-- A document type as assembled by `fetchServiceMetadata` from the
ServiceGroup hrefs (its `processes` list is always empty there). -/
structure DocType where
  documentIdentifier : PidPair
  friendlyName : String
deriving DecidableEq, Repr

/-- The `ServiceMetadata` record `fetchServiceMetadata` returns. -/
structure SMResult where
  participantIdentifier : PidPair
  documentTypes : List DocType
  smpUrl : Option String
deriving DecidableEq, Repr

/-- `extractEndpointInfo`'s result. -/
structure EndpointInfoT where
  smpHostname : String
  endpoint : Option EndpointDetail
  diagnostics : Option Diagnostics
deriving DecidableEq, Repr

/-- Certificate information: all claims are insensitive to its contents,
so the collaborator's output is kept as an abstract payload. -/
structure CertInfo where
  payload : String
deriving DecidableEq, Repr

/-- A business-card contact. -/
structure BCContact where
  type : String
  name : Option String
  phoneNumber : Option String
  email : Option String
deriving DecidableEq, Repr

/-- A business entity as returned by the business-card probe. -/
structure BusinessEntity where
  name : String
  countryCode : String
  identifiers : List PidPair
  websites : Option (List String)
  contacts : Option (List BCContact)
  geographicalInfo : Option String
deriving DecidableEq, Repr

/-- The `ParticipantInfo` result record of `resolve`. -/
structure ParticipantInfo where
  participantId : String
  isRegistered : Bool
  registrationStatus : RegStatus
  hasActiveEndpoints : Bool
  smpHostname : Option String := none
  documentTypes : Option (List String) := none
  endpoint : Option EndpointDetail := none
  certificateInfo : Option CertInfo := none
  businessEntity : Option BusinessEntity := none
  diagnostics : Option Diagnostics := none
  error : Option String := none
deriving DecidableEq, Repr

/-- Per-resolution options (`ResolveOptions`). -/
structure ResolveOptions where
  fetchDocumentTypes : Bool := false
  includeBusinessCard : Bool := false
  parseCertificate : Bool := false
deriving DecidableEq, Repr

/-- An HTTP response as the HTTP client / redirect handler returns it. -/
structure HttpResp where
  statusCode : Nat
  body : String
deriving DecidableEq, Repr

/-- One observable I/O action of a resolution. -/
inductive Event
  | dns (domain : String)
  | http (url : String)
deriving DecidableEq, Repr

/-- The environment of collaborators the orchestrator runs against: DNS
answers, HTTP responses (keyed by URL, deterministic within a
resolution), the XML parser, `decodeURIComponent`, the certificate
parser, the business-card XML scraper (`parseBusinessCardXML`, whose
regexp internals none of the claims touch) and the document-type
code-list lookup (`extractFriendlyDocumentName`).  `Except.error`
models the collaborator throwing. -/
structure Env where
  resolveNAPTR : String → Except String (List DNSRecord)
  followRedirects : String → Except String HttpResp
  getWithTimeout : String → Nat → Except String HttpResp
  parseServiceGroup : String → Except String ServiceGroupT
  parseServiceMetadata : String → Except String ParsedSM
  decodeURIComp : String → Except String String
  certParse : String → Except String CertInfo
  parseBusinessCard : String → Option BusinessEntity
  friendlyName : String → String

/-! ## The resolution pipeline (`src/resolver.ts`) -/

/-- The ServiceGroup URL: `{smpUrl}/iso6523-actorid-upis::{participantId}`. -/
def serviceGroupUrl (smpUrl pid : String) : String :=
  smpUrl ++ "/iso6523-actorid-upis::" ++ pid

/-- The `/\/services\/(.+)$/` match on a ServiceGroup href: the first
occurrence of `/services/` whose (nonempty) remainder reaches the end of
the string without a line terminator. -/
def servicesTail : List Char → Option (List Char)
  | [] => none
  | l@(_ :: xs) =>
      if ("/services/".data).isPrefixOf l then
        let t := l.drop 10
        if !t.isEmpty && t.all (fun c => !isLineTerm c) then some t
        else servicesTail xs
      else servicesTail xs

/-- `docId.split('::')` (JavaScript split with a two-character
separator). -/
def jsSplitDCol : List Char → List (List Char)
  | [] => [[]]
  | ':' :: ':' :: rest => [] :: jsSplitDCol rest
  | c :: rest =>
      match jsSplitDCol rest with
      | [] => [[c]]
      | g :: gs => (c :: g) :: gs

/-- The scheme/value split of a decoded document identifier performed in
`fetchServiceMetadata` (`busdox-docid-qns` when no `::` is present). -/
def docIdSchemeValue (docId : String) : PidPair :=
  if strIncludes docId "::" then
    match jsSplitDCol docId.data with
    | [] => ⟨"busdox-docid-qns", docId⟩
    | p :: ps => ⟨⟨p⟩, ⟨List.intercalate "::".data ps⟩⟩
  else ⟨"busdox-docid-qns", docId⟩

/-- The document-type extraction loop of `fetchServiceMetadata` over the
ServiceGroup hrefs (`decodeURIComponent` may throw, which propagates). -/
def buildDocTypes (env : Env) : List String → Except String (List DocType)
  | [] => .ok []
  | refUrl :: rest =>
      match servicesTail refUrl.data with
      | none => buildDocTypes env rest
      | some tl =>
          match env.decodeURIComp ⟨tl⟩ with
          | .error e => .error e
          | .ok docId =>
              let pair := docIdSchemeValue docId
              match buildDocTypes env rest with
              | .error e => .error e
              | .ok dts => .ok (⟨pair, env.friendlyName pair.value⟩ :: dts)

/-- `fetchServiceMetadata`: fetch and parse the ServiceGroup, extract the
document types from its hrefs.  The returned event list is the HTTP
request issued. -/
def fetchServiceMetadataM (env : Env) (smpUrl pid : String) :
    Except String SMResult × List Event :=
  let sgUrl := serviceGroupUrl smpUrl pid
  let tr := [Event.http sgUrl]
  match env.followRedirects sgUrl with
  | .error e => (.error e, tr)
  | .ok resp =>
      if resp.statusCode ≠ 200 then
        (.error ("SMP returned status " ++ toString resp.statusCode), tr)
      else
        match env.parseServiceGroup resp.body with
        | .error e => (.error e, tr)
        | .ok sg =>
            match buildDocTypes env sg.serviceReferences with
            | .error e => (.error e, tr)
            | .ok dts =>
                (.ok ⟨sg.participantIdentifier, dts, some smpUrl⟩, tr)

/-- The ServiceMetadata URL for the first document type:
`{smpUrl}/iso6523-actorid-upis::{pid}/services/{urlencoded(scheme::value)}`. -/
def metadataUrlFor (smpUrl pid : String) (dt : DocType) : String :=
  smpUrl ++ "/iso6523-actorid-upis::" ++ pid ++ "/services/" ++
    encodeURIComponent (dt.documentIdentifier.scheme ++ "::" ++ dt.documentIdentifier.value)

/-- Build the endpoint descriptor from a parsed endpoint. -/
def mkEndpointDetail (ep : ParsedEndpoint) : EndpointDetail :=
  ⟨ep.endpointUrl, ep.transportProfile, ep.technicalContactUrl,
   ep.technicalInformationUrl, ep.serviceDescription, ep.certificate,
   ep.serviceActivationDate, ep.serviceExpirationDate⟩

/-- The first endpoint of the first process of the first document type of
a parsed ServiceMetadata (the nested `length > 0` checks of
`extractEndpointInfo`); `none` when any level is empty. -/
def firstEndpoint (sm : ParsedSM) : Option EndpointDetail :=
  match sm.documentTypes with
  | [] => none
  | fd :: _ =>
      match fd.processes with
      | [] => none
      | fp :: _ =>
          match fp.endpoints with
          | [] => none
          | ep :: _ => some (mkEndpointDetail ep)

/-- `extractEndpointInfo`: fetch the first document type's ServiceMetadata
and select the first endpoint of its first process; non-200 responses and
thrown fetch/parse errors become a single `smpErrors` diagnostic.  The
initial `new URL(smpUrl).hostname` may throw (`.error`), which the caller
propagates to `resolve`'s outer catch. -/
def extractEndpointInfoM (env : Env) (metadata : SMResult) (smpUrl pid : String) :
    Except String EndpointInfoT × List Event :=
  match urlParse smpUrl with
  | none => (.error "Invalid URL", [])
  | some u =>
      let host := u.hostname
      match metadata.documentTypes with
      | [] => (.ok ⟨host, none, none⟩, [])
      | dt :: _ =>
          let mUrl := metadataUrlFor smpUrl pid dt
          let tr := [Event.http mUrl]
          match env.followRedirects mUrl with
          | .error e => (.ok ⟨host, none, some ⟨[⟨mUrl, 0, e⟩]⟩⟩, tr)
          | .ok resp =>
              if resp.statusCode = 200 then
                match env.parseServiceMetadata resp.body with
                | .error e => (.ok ⟨host, none, some ⟨[⟨mUrl, 0, e⟩]⟩⟩, tr)
                | .ok sm => (.ok ⟨host, firstEndpoint sm, none⟩, tr)
              else
                (.ok ⟨host, none,
                  some ⟨[⟨mUrl, resp.statusCode,
                    "SMP returned HTTP " ++ toString resp.statusCode ++
                      " when fetching service metadata"⟩]⟩⟩, tr)

/-- The five business-card URL path patterns, in probe order. -/
def bcPatterns (pid : String) : List String :=
  let fullIdentifier := "iso6523-actorid-upis::" ++ pid
  let enc := encodeURIComponent fullIdentifier
  [ "/businesscard/" ++ fullIdentifier,
    "/" ++ enc ++ "/businesscard",
    "/smp/businesscard/" ++ enc,
    "/api/businesscard/" ++ enc,
    "/rest/businesscard/" ++ enc ]

/-- The probe's plain-HTTP base URL. -/
def httpBaseOf (baseUrl : String) : String :=
  if strStartsWith baseUrl "https" then replaceFirst baseUrl "https://" "http://"
  else baseUrl

/-- The probe's HTTPS base URL. -/
def httpsBaseOf (baseUrl : String) : String :=
  if strStartsWith baseUrl "http://" then replaceFirst baseUrl "http://" "https://"
  else baseUrl

/-- How one scheme pass of the business-card probe ended. -/
inductive ProbeExit
  | returned (r : Option BusinessEntity)
  | failed
  | exhausted
deriving DecidableEq, Repr

/-- One scheme pass of the probe: try each URL in order with the short
timeout; a 200 whose body starts with `<` returns (the parse result, even
when `null`); a thrown request ends the pass (`failed`); any other
response moves on.  Also returns the list of URLs requested. -/
def probeLoop (env : Env) : List String → ProbeExit × List String
  | [] => (.exhausted, [])
  | u :: us =>
      match env.getWithTimeout u 5000 with
      | .error _ => (.failed, [u])
      | .ok resp =>
          if resp.statusCode = 200 && trimStartsWithLt resp.body then
            (.returned (env.parseBusinessCard resp.body), [u])
          else
            let (e, t) := probeLoop env us
            (e, u :: t)

/-- `fetchBusinessCardXML`: the HTTPS pass over the five patterns, then —
unless the HTTPS pass returned — the HTTP pass; a `failed` HTTP pass or
exhaustion yields `none`. -/
def fetchBusinessCardXMLM (env : Env) (pid baseUrl : String) :
    Option BusinessEntity × List Event :=
  let patterns := bcPatterns pid
  let httpsUrls := patterns.map (fun p => httpsBaseOf baseUrl ++ p)
  let httpUrls := patterns.map (fun p => httpBaseOf baseUrl ++ p)
  match probeLoop env httpsUrls with
  | (.returned r, t) => (r, t.map .http)
  | (_, t1) =>
      match probeLoop env httpUrls with
      | (.returned r, t2) => (r, (t1 ++ t2).map .http)
      | (_, t2) => (none, (t1 ++ t2).map .http)

/-- The placeholder entity `getBusinessCard` substitutes when the probe
yields nothing. -/
def defaultEntity (pid : String) : BusinessEntity :=
  { name := "Unknown"
    countryCode := ""
    identifiers := [⟨(jsSplit ':' pid).getD 0 "", (jsSplit ':' pid).getD 1 ""⟩]
    websites := none
    contacts := none
    geographicalInfo := none }

/-- `getBusinessCard`: reparse the id, redo the DNS lookup, probe the
business card against the full SMP URL, and substitute the placeholder
entity when the probe yields nothing. -/
def getBusinessCardM (env : Env) (smlDomain pid : String) :
    Except String (BusinessEntity × String) × List Event :=
  let parts := jsSplit ':' pid
  let scheme := parts.getD 0 ""
  let value := parts.getD 1 ""
  if scheme = "" ∨ value = "" then (.error "Invalid participant ID format", [])
  else
    let hash := hashParticipantId value scheme
    let domain := hash ++ ".iso6523-actorid-upis." ++ smlDomain
    match env.resolveNAPTR domain with
    | .error e => (.error e, [.dns domain])
    | .ok records =>
        match extractSMPUrlNaptr records with
        | none => (.error "Participant not registered", [.dns domain])
        | some smpUrl =>
            match urlParse smpUrl with
            | none => (.error "Invalid URL", [.dns domain])
            | some u =>
                let (ent, tb) := fetchBusinessCardXMLM env pid smpUrl
                (.ok (ent.getD (defaultEntity pid), u.hostname), .dns domain :: tb)

/-- `resolve`'s full outcome: the returned `ParticipantInfo` plus the
internal selection state (`endpointInfo.endpoint` and the discovered
document types) and the observable I/O trace, which the invariants and
I/O claims quantify over. -/
structure ResolveOut where
  info : ParticipantInfo
  selEndpoint : Option EndpointDetail
  docTypes : List DocType
  trace : List Event
deriving DecidableEq, Repr

/-- An unregistered result produced by `resolve`'s catch-all or early
returns. -/
def unregOut (pid : String) (tr : List Event) (err : String) : ResolveOut :=
  { info := { participantId := pid, isRegistered := false,
              registrationStatus := .unregistered, hasActiveEndpoints := false,
              error := some err }
    selEndpoint := none
    docTypes := []
    trace := tr }

/-- The tail of `resolve`'s success path: status classification from the
selected endpoint and document types, option-gated result fields, the
silently-absorbed certificate parse, and the silently-absorbed
business-card fetch. -/
def successOut (env : Env) (smlDomain : String) (opts : ResolveOptions)
    (pid : String) (sm : SMResult) (epInfo : EndpointInfoT) (tr : List Event) :
    ResolveOut :=
  let hasEndpoints := epInfo.endpoint.isSome
  let hasDocumentTypes : Bool := decide (sm.documentTypes ≠ [])
  let hasActiveEndpoints := hasEndpoints && hasDocumentTypes
  let registrationStatus := if hasActiveEndpoints then RegStatus.active else RegStatus.parked
  let certificateInfo :=
    if opts.parseCertificate then
      match epInfo.endpoint with
      | some ep =>
          match ep.certificate with
          | some cert =>
              match env.certParse cert with
              | .ok ci => some ci
              | .error _ => none
          | none => none
      | none => none
    else none
  let bc := if opts.includeBusinessCard then some (getBusinessCardM env smlDomain pid) else none
  let businessEntity :=
    match bc with
    | some (.ok p, _) => some p.1
    | _ => none
  let bcTrace :=
    match bc with
    | some (_, t) => t
    | none => []
  { info := { participantId := pid
              isRegistered := true
              registrationStatus := registrationStatus
              hasActiveEndpoints := hasActiveEndpoints
              smpHostname :=
                if opts.fetchDocumentTypes || opts.includeBusinessCard then
                  some epInfo.smpHostname
                else none
              documentTypes :=
                if opts.fetchDocumentTypes then
                  some (sm.documentTypes.map fun dt =>
                    if dt.friendlyName ≠ "" then dt.friendlyName
                    else dt.documentIdentifier.value)
                else none
              endpoint := if opts.fetchDocumentTypes then epInfo.endpoint else none
              certificateInfo := certificateInfo
              businessEntity := businessEntity
              diagnostics := epInfo.diagnostics
              error := none }
    selEndpoint := epInfo.endpoint
    docTypes := sm.documentTypes
    trace := tr ++ bcTrace }

/-- `resolve`, the core resolution method: parse the id via
`split(':')`, hash, DNS NAPTR lookup, ServiceGroup fetch (a 404 parks the
participant), endpoint extraction, then result assembly.  Any uncaught
throw lands in the outer catch, yielding an unregistered result carrying
the error message. -/
def resolveM (env : Env) (smlDomain pid : String) (opts : ResolveOptions) : ResolveOut :=
  let parts := jsSplit ':' pid
  let scheme := parts.getD 0 ""
  let value := parts.getD 1 ""
  if scheme = "" ∨ value = "" then
    unregOut pid [] "Invalid participant ID format. Expected: scheme:value"
  else
    let hash := hashParticipantId value scheme
    let domain := hash ++ ".iso6523-actorid-upis." ++ smlDomain
    let t0 := [Event.dns domain]
    match env.resolveNAPTR domain with
    | .error e => unregOut pid t0 e
    | .ok records =>
        match extractSMPUrlNaptr records with
        | none => unregOut pid t0 "No SMP found via DNS lookup"
        | some smpUrl =>
            match fetchServiceMetadataM env smpUrl pid with
            | (.error e, t1) =>
                if strIncludes e "SMP returned status 404" then
                  match urlParse smpUrl with
                  | none => unregOut pid (t0 ++ t1) "Invalid URL"
                  | some u =>
                      successOut env smlDomain opts pid
                        ⟨⟨scheme, value⟩, [], some smpUrl⟩
                        ⟨u.hostname, none, none⟩ (t0 ++ t1)
                else unregOut pid (t0 ++ t1) e
            | (.ok sm, t1) =>
                match extractEndpointInfoM env sm smpUrl pid with
                | (.error e, t2) => unregOut pid (t0 ++ t1 ++ t2) e
                | (.ok epInfo, t2) =>
                    successOut env smlDomain opts pid sm epInfo (t0 ++ t1 ++ t2)

/-! ## Concrete test environments

Deterministic environments used to instantiate the theorems on concrete
inputs. -/

/-- A NAPTR record whose replacement is a plain SMP URL. -/
def recPlain : DNSRecord :=
  ⟨100, 10, "U", "Meta:SMP", "!^.*$!http://smp.example.com!", ""⟩

/-- An environment whose DNS answer is one plain `Meta:SMP` record and
whose ServiceGroup fetch always returns HTTP 404; every business-card
request gets a 404 as well. -/
def envParked : Env :=
  { resolveNAPTR := fun _ => .ok [recPlain]
    followRedirects := fun _ => .ok ⟨404, "not found"⟩
    getWithTimeout := fun _ _ => .ok ⟨404, "not found"⟩
    parseServiceGroup := fun _ => .error "unused"
    parseServiceMetadata := fun _ => .error "unused"
    decodeURIComp := fun s => .ok s
    certParse := fun _ => .error "unused"
    parseBusinessCard := fun _ => none
    friendlyName := fun _ => "" }

/-- An environment with no DNS answer at all. -/
def envNoDns : Env :=
  { resolveNAPTR := fun _ => .ok []
    followRedirects := fun _ => .error "no network"
    getWithTimeout := fun _ _ => .error "no network"
    parseServiceGroup := fun _ => .error "unused"
    parseServiceMetadata := fun _ => .error "unused"
    decodeURIComp := fun s => .ok s
    certParse := fun _ => .error "unused"
    parseBusinessCard := fun _ => none
    friendlyName := fun _ => "" }

/-! ## List toolkit for the URL parser proofs -/

lemma takeWhile_append_all {p : Char → Bool} {xs ys : List Char}
    (h : ∀ a ∈ xs, p a = true) :
    (xs ++ ys).takeWhile p = xs ++ ys.takeWhile p := by
  rw [List.takeWhile_append, if_pos]
  rw [List.takeWhile_eq_self_iff.mpr h]

lemma dropWhile_append_all {p : Char → Bool} {xs ys : List Char}
    (h : ∀ a ∈ xs, p a = true) :
    (xs ++ ys).dropWhile p = ys.dropWhile p := by
  rw [List.dropWhile_append, if_pos]
  simp [List.dropWhile_eq_nil_iff.mpr h]

lemma takeWhile_cons_false {p : Char → Bool} {x : Char} {xs : List Char}
    (h : p x = false) : (x :: xs).takeWhile p = [] := by
  simp [List.takeWhile_cons, h]

lemma dropWhile_cons_false {p : Char → Bool} {x : Char} {xs : List Char}
    (h : p x = false) : (x :: xs).dropWhile p = x :: xs := by
  simp [List.dropWhile_cons, h]

lemma head?_dropWhile_false {p : Char → Bool} (l : List Char) :
    ∀ a, (l.dropWhile p).head? = some a → p a = false := by
  induction l with
  | nil => intro a h; simp at h
  | cons x xs ih =>
      intro a h
      by_cases hx : p x
      · rw [List.dropWhile_cons, if_pos hx] at h; exact ih a h
      · rw [List.dropWhile_cons, if_neg hx] at h
        simp only [List.head?_cons, Option.some.injEq] at h
        subst h; exact Bool.not_eq_true _ ▸ hx

lemma dropWhile_concat_false {q : Char → Bool} {m : List Char} {c : Char}
    (hc : q c = false) : (m ++ [c]).dropWhile q = m.dropWhile q ++ [c] := by
  rw [List.dropWhile_append]
  split
  · rename_i hnil
    rw [List.isEmpty_iff] at hnil
    rw [hnil, dropWhile_cons_false hc]
    simp
  · rfl

/-- A list ends with a character outside `p` exactly as its `dropWhile`
does. -/
lemma getLast?_append_right {xs ys : List Char} (h : ys ≠ []) :
    (xs ++ ys).getLast? = ys.getLast? := by
  induction xs with
  | nil => rfl
  | cons x xs ih =>
      rw [List.cons_append, List.getLast?_cons, ih]
      rcases List.exists_cons_of_ne_nil h with ⟨y, ys', rfl⟩
      cases xs <;> simp [List.getLast?_cons]

/-- `jsTrimC0` does not change a list that ends in `'/'` except for its
leading trim. -/
lemma jsTrimC0_concat_slash (m : List Char) :
    jsTrimC0 (m ++ ['/']) = m.dropWhile isC0OrSpace ++ ['/'] := by
  have h1 : (m ++ ['/']).dropWhile isC0OrSpace = m.dropWhile isC0OrSpace ++ ['/'] :=
    dropWhile_concat_false (by decide)
  rw [jsTrimC0, h1, List.reverse_append]
  rw [show (['/'] : List Char).reverse = ['/'] from rfl, List.singleton_append,
    dropWhile_cons_false (by decide)]
  simp

/-- Sanitizing an input ending in `'/'`, and sanitizing the same input
with that final slash dropped. -/
lemma urlSanitize_slash {l : List Char} (h : l.getLast? = some '/') :
    ∃ m, urlSanitize l = m ++ ['/'] ∧
      urlSanitize l.dropLast = (m.reverse.dropWhile isC0OrSpace).reverse := by
  obtain ⟨l', rfl⟩ := List.getLast?_eq_some_iff.mp h
  rw [List.dropLast_concat]
  have hf : (l' ++ ['/']).filter (fun c => !isTabOrNl c) =
      l'.filter (fun c => !isTabOrNl c) ++ ['/'] := by
    rw [List.filter_append]; rfl
  refine ⟨(l'.filter (fun c => !isTabOrNl c)).dropWhile isC0OrSpace, ?_, ?_⟩
  · rw [urlSanitize, hf, jsTrimC0_concat_slash]
  · rfl

/-- End-trimming distributes over a concatenation whose first part ends in
an untrimmed character. -/
lemma trimEnd_append_keep {P R : List Char} {a : Char}
    (hP : P.getLast? = some a) (ha : isC0OrSpace a = false) :
    ((P ++ R).reverse.dropWhile isC0OrSpace).reverse =
      P ++ (R.reverse.dropWhile isC0OrSpace).reverse := by
  obtain ⟨P', rfl⟩ := List.getLast?_eq_some_iff.mp hP
  rw [List.reverse_append, List.dropWhile_append]
  split
  · rename_i hnil
    rw [List.isEmpty_iff] at hnil
    rw [show (P' ++ [a]).reverse = a :: P'.reverse by simp,
      dropWhile_cons_false ha, hnil]
    simp
  · simp [List.reverse_append]

/-! ## Lemmas about the URL parser -/

lemma authChar_not_slashy {c : Char} (h : isAuthChar c = true) : isSlashy c = false := by
  simp only [isAuthChar, Bool.and_eq_true, decide_eq_true_eq] at h
  simp only [isSlashy, Bool.or_eq_false_iff, decide_eq_false_iff_not]
  tauto

lemma mem_of_getLast?Eq {l : List Char} {a : Char} (h : l.getLast? = some a) : a ∈ l := by
  obtain ⟨ys, rfl⟩ := List.getLast?_eq_some_iff.mp h
  simp

lemma digit_not_c0 {c : Char} (h : c.isDigit = true) : isC0OrSpace c = false := by
  simp only [Char.isDigit, Bool.and_eq_true, decide_eq_true_eq] at h
  simp only [isC0OrSpace, decide_eq_false_iff_not]
  intro hc
  have h48 : (48 : Nat) ≤ c.toNat := h.1
  omega

lemma forbidden_false_not_c0 {c : Char} (h : isForbiddenHostChar c = false) :
    isC0OrSpace c = false := by
  simp only [isForbiddenHostChar, Bool.or_eq_false_iff, decide_eq_false_iff_not] at h
  simp only [isC0OrSpace, decide_eq_false_iff_not]
  omega

/-- A parsed `host:port` chunk ends in a character that end-trimming does
not remove. -/
lemma parseHostPort_last {hostPort : List Char} {r : String × String}
    (h : parseHostPort hostPort = some r) :
    ∃ a, hostPort.getLast? = some a ∧ isC0OrSpace a = false := by
  rw [parseHostPort] at h
  by_cases hemp : hostPort.isEmpty
  · rw [if_pos hemp] at h; exact absurd h (by simp)
  rw [if_neg hemp] at h
  by_cases hbr : hostPort.head? = some '['
  · rw [if_pos hbr] at h
    cases hd : hostPort.dropWhile (· ≠ ']') with
    | nil => simp only [hd] at h; exact absurd h (by simp)
    | cons cb rest =>
        have hsplit : hostPort = hostPort.takeWhile (· ≠ ']') ++ cb :: rest := by
          rw [← hd, List.takeWhile_append_dropWhile]
        cases rest with
        | nil =>
            refine ⟨cb, ?_, ?_⟩
            · rw [hsplit, getLast?_append_right (by simp)]; rfl
            · have := @head?_dropWhile_false (· ≠ ']') hostPort cb (by rw [hd]; rfl)
              simp only [decide_eq_false_iff_not, not_not] at this
              subst this; decide
        | cons c p =>
            simp only [hd] at h
            by_cases hcp : (c = ':' && p.all (·.isDigit)) = true
            · simp only [Bool.and_eq_true, decide_eq_true_eq] at hcp
              obtain ⟨rfl, hdig⟩ := hcp
              cases hp : p with
              | nil =>
                  subst hp
                  refine ⟨':', ?_, by decide⟩
                  rw [hsplit, getLast?_append_right (by simp)]; rfl
              | cons q qs =>
                  have hpne : p ≠ [] := by rw [hp]; simp
                  obtain ⟨a, ha⟩ : ∃ a, p.getLast? = some a :=
                    Option.isSome_iff_exists.mp (List.getLast?_isSome.mpr hpne)
                  refine ⟨a, ?_, ?_⟩
                  · rw [hsplit, getLast?_append_right (by simp),
                      show (cb :: ':' :: p) = [cb, ':'] ++ p by rfl,
                      getLast?_append_right hpne, ha]
                  · have hmem : a ∈ p := mem_of_getLast?Eq ha
                    exact digit_not_c0 (by
                      have := List.all_eq_true.mp hdig a hmem
                      simpa using this)
            · rw [if_neg hcp] at h; exact absurd h (by simp)
  · rw [if_neg hbr] at h
    by_cases hhe : (hostPort.takeWhile (· ≠ ':')).isEmpty
    · rw [if_pos hhe] at h; exact absurd h (by simp)
    rw [if_neg hhe] at h
    by_cases hforb : (hostPort.takeWhile (· ≠ ':')).any isForbiddenHostChar
    · rw [if_pos hforb] at h; exact absurd h (by simp)
    rw [if_neg hforb] at h
    have hsplit : hostPort =
        hostPort.takeWhile (· ≠ ':') ++ hostPort.dropWhile (· ≠ ':') := by
      rw [List.takeWhile_append_dropWhile]
    cases hd : hostPort.dropWhile (· ≠ ':') with
    | nil =>
        have hne : hostPort.takeWhile (· ≠ ':') ≠ [] := by
          intro hx; rw [hx] at hhe; exact hhe rfl
        obtain ⟨a, ha⟩ : ∃ a, (hostPort.takeWhile (· ≠ ':')).getLast? = some a :=
          Option.isSome_iff_exists.mp (List.getLast?_isSome.mpr hne)
        refine ⟨a, ?_, ?_⟩
        · rw [hsplit, hd, List.append_nil, ha]
        · have hmem : a ∈ hostPort.takeWhile (· ≠ ':') := mem_of_getLast?Eq ha
          have : isForbiddenHostChar a = false := by
            by_contra hcon
            exact hforb (List.any_eq_true.mpr ⟨a, hmem, by
              cases hfa : isForbiddenHostChar a
              · exact absurd hfa hcon
              · rfl⟩)
          exact forbidden_false_not_c0 this
    | cons c p =>
        simp only [hd] at h
        by_cases hcp : (c = ':' && p.all (·.isDigit) && p.length ≤ 5) = true
        · simp only [Bool.and_eq_true, decide_eq_true_eq] at hcp
          obtain ⟨⟨rfl, hdig⟩, -⟩ := hcp
          cases hp : p with
          | nil =>
              subst hp
              refine ⟨':', ?_, by decide⟩
              rw [hsplit, hd, getLast?_append_right (by simp)]; rfl
          | cons q qs =>
              have hpne : p ≠ [] := by rw [hp]; simp
              obtain ⟨a, ha⟩ : ∃ a, p.getLast? = some a :=
                Option.isSome_iff_exists.mp (List.getLast?_isSome.mpr hpne)
              refine ⟨a, ?_, ?_⟩
              · rw [hsplit, hd, getLast?_append_right (by simp),
                  show (':' :: p : List Char) = [':'] ++ p by rfl,
                  getLast?_append_right hpne, ha]
              · have hmem : a ∈ p := mem_of_getLast?Eq ha
                exact digit_not_c0 (by
                  have := List.all_eq_true.mp hdig a hmem
                  simpa using this)
        · rw [if_neg hcp] at h; exact absurd h (by simp)

/-- A parsed authority chunk ends in a character that end-trimming does
not remove. -/
lemma parseAuthority_last {auth : List Char} {a4} (h : parseAuthority auth = some a4) :
    ∃ a, auth.getLast? = some a ∧ isC0OrSpace a = false := by
  rw [parseAuthority] at h
  rcases hp : parseHostPort ((auth.reverse.takeWhile (· ≠ '@')).reverse) with - | r
  · rw [hp] at h; exact absurd h (by simp)
  · obtain ⟨a, hlast, hc0⟩ := parseHostPort_last hp
    have hne : (auth.reverse.takeWhile (· ≠ '@')).reverse ≠ [] := by
      intro hnil
      rw [hnil] at hp
      rw [show parseHostPort [] = none from rfl] at hp
      exact absurd hp (by simp)
    have hdecomp : auth =
        (auth.reverse.dropWhile (· ≠ '@')).reverse ++
          (auth.reverse.takeWhile (· ≠ '@')).reverse := by
      rw [← List.reverse_append, List.takeWhile_append_dropWhile, List.reverse_reverse]
    refine ⟨a, ?_, hc0⟩
    rw [hdecomp, getLast?_append_right hne]
    exact hlast

/-- Forward evaluation of the URL parser core on a decomposed
special-scheme input. -/
lemma urlParseCore_eval_special {c0 : Char} {body slashes auth R : List Char}
    (hc0 : isAlpha c0 = true)
    (hbody : ∀ x ∈ body, isSchemeChar x = true)
    (hspec : isSpecialScheme (asciiLower (c0 :: body)) = true)
    (hsl : ∀ x ∈ slashes, isSlashy x = true)
    (hauth : ∀ x ∈ auth, isAuthChar x = true)
    (hne : auth ≠ [])
    (hR : R = [] ∨ ∃ d R', R = d :: R' ∧ isAuthChar d = false) :
    urlParseCore (c0 :: (body ++ ':' :: (slashes ++ (auth ++ R)))) =
      (parseAuthority auth).map fun a =>
        mkSpecialUrl (asciiLower (c0 :: body)) a R := by
  have h1 : (body ++ ':' :: (slashes ++ (auth ++ R))).takeWhile isSchemeChar = body := by
    rw [takeWhile_append_all hbody, takeWhile_cons_false (by decide), List.append_nil]
  have h2 : (body ++ ':' :: (slashes ++ (auth ++ R))).dropWhile isSchemeChar =
      ':' :: (slashes ++ (auth ++ R)) := by
    rw [dropWhile_append_all hbody, dropWhile_cons_false (by decide)]
  have h3 : (slashes ++ (auth ++ R)).dropWhile isSlashy = auth ++ R := by
    rw [dropWhile_append_all hsl]
    rcases List.exists_cons_of_ne_nil hne with ⟨a0, auth', ha0⟩
    rw [ha0, List.cons_append, dropWhile_cons_false
      (authChar_not_slashy (hauth a0 (by rw [ha0]; simp)))]
  have h4 : (auth ++ R).takeWhile isAuthChar = auth := by
    rw [takeWhile_append_all hauth]
    rcases hR with rfl | ⟨d, R', rfl, hd⟩
    · simp
    · rw [takeWhile_cons_false hd, List.append_nil]
  have h5 : (auth ++ R).dropWhile isAuthChar = R := by
    rw [dropWhile_append_all hauth]
    rcases hR with rfl | ⟨d, R', rfl, hd⟩
    · rfl
    · rw [dropWhile_cons_false hd]
  simp only [urlParseCore, hc0, Bool.not_true, Bool.false_eq_true, if_false, h1, h2]
  rw [if_pos trivial, if_pos hspec]
  simp only [h3, h4, h5]
  cases parseAuthority auth <;> rfl

lemma mkOpaqueUrl_protocol (s rem) : (mkOpaqueUrl s rem).protocol = ⟨s ++ [':']⟩ := rfl

lemma mkSpecialUrl_protocol (s a R) : (mkSpecialUrl s a R).protocol = ⟨s ++ [':']⟩ := rfl

/-- Inversion of a successful parse with an http/https protocol into the
regions of the input. -/
lemma urlParseCore_special_decomp {cs : List Char} {u : Url}
    (h : urlParseCore cs = some u)
    (hsp : u.protocol = "https:" ∨ u.protocol = "http:") :
    ∃ (c0 : Char) (body slashes auth R : List Char)
      (a : String × String × String × String),
      cs = c0 :: (body ++ ':' :: (slashes ++ (auth ++ R))) ∧
      isAlpha c0 = true ∧
      (∀ x ∈ body, isSchemeChar x = true) ∧
      isSpecialScheme (asciiLower (c0 :: body)) = true ∧
      (∀ x ∈ slashes, isSlashy x = true) ∧
      (∀ x ∈ auth, isAuthChar x = true) ∧
      auth ≠ [] ∧
      parseAuthority auth = some a ∧
      (R = [] ∨ ∃ d R', R = d :: R' ∧ isAuthChar d = false) ∧
      u = mkSpecialUrl (asciiLower (c0 :: body)) a R := by
  cases cs with
  | nil => exact absurd h (by simp [urlParseCore])
  | cons c0 rest =>
    cases hc0 : isAlpha c0 with
    | false => rw [urlParseCore] at h; rw [hc0] at h; exact absurd h (by simp)
    | true =>
      rw [urlParseCore] at h
      rw [hc0] at h
      simp only [Bool.not_true, Bool.false_eq_true, if_false] at h
      cases hafter : rest.dropWhile isSchemeChar with
      | nil => simp only [hafter] at h; exact absurd h (by simp)
      | cons c1 rem =>
        simp only [hafter] at h
        by_cases hc1 : c1 = ':'
        case neg => rw [if_neg hc1] at h; exact absurd h (by simp)
        subst hc1
        rw [if_pos rfl] at h
        by_cases hspec : isSpecialScheme (asciiLower (c0 :: rest.takeWhile isSchemeChar)) = true
        case neg =>
          rw [if_neg hspec] at h
          injection h with h
          subst h
          exfalso
          rcases hsp with hsp | hsp <;>
          · have hdata := congrArg String.data hsp
            rw [mkOpaqueUrl_protocol] at hdata
            have hscheme := congrArg List.dropLast hdata
            simp only [List.dropLast_concat] at hscheme
            rw [hscheme] at hspec
            exact hspec (by decide)
        case pos =>
          rw [if_pos hspec] at h
          rcases hauthp : parseAuthority
              ((rem.dropWhile isSlashy).takeWhile isAuthChar) with - | a
          · rw [hauthp] at h; exact absurd h (by simp)
          rw [hauthp] at h
          injection h with h
          refine ⟨c0, rest.takeWhile isSchemeChar, rem.takeWhile isSlashy,
            (rem.dropWhile isSlashy).takeWhile isAuthChar,
            (rem.dropWhile isSlashy).dropWhile isAuthChar, a,
            ?_, hc0, ?_, hspec, ?_, ?_, ?_, hauthp, ?_, h.symm⟩
          · rw [show (rest.takeWhile isSchemeChar ++
              ':' :: (rem.takeWhile isSlashy ++
                ((rem.dropWhile isSlashy).takeWhile isAuthChar ++
                  (rem.dropWhile isSlashy).dropWhile isAuthChar))) =
              rest.takeWhile isSchemeChar ++
              ':' :: (rem.takeWhile isSlashy ++ rem.dropWhile isSlashy) from by
                rw [List.takeWhile_append_dropWhile]]
            rw [List.takeWhile_append_dropWhile, ← hafter,
              List.takeWhile_append_dropWhile]
          · exact fun x hx => List.mem_takeWhile_imp hx
          · exact fun x hx => List.mem_takeWhile_imp hx
          · exact fun x hx => List.mem_takeWhile_imp hx
          · intro hnil
            rw [hnil] at hauthp
            rw [show parseAuthority [] = none from rfl] at hauthp
            exact absurd hauthp (by simp)
          · cases hR0 : (rem.dropWhile isSlashy).dropWhile isAuthChar with
            | nil => exact Or.inl rfl
            | cons d R' =>
                refine Or.inr ⟨d, R', rfl, ?_⟩
                exact head?_dropWhile_false _ d (by rw [hR0]; rfl)

/-- `isValidSMPUrl` unpacked into the parsed URL's fields. -/
lemma isValidSMPUrl_iff {u : String} :
    isValidSMPUrl u = true ↔ ∃ w, urlParse u = some w ∧
      (w.protocol = "https:" ∨ w.protocol = "http:") ∧
      w.username = "" ∧ w.password = "" ∧ w.search = "" ∧ w.frag = "" := by
  rcases hp : urlParse u with - | w
  · rw [isValidSMPUrl, hp]
    simp [hp]
  · rw [isValidSMPUrl, hp]
    show isValidSMPUrlCore w = true ↔ _
    rw [isValidSMPUrlCore]
    constructor
    · intro h
      by_cases h1 : (w.protocol ≠ "https:" && w.protocol ≠ "http:") = true
      · rw [if_pos h1] at h; exact absurd h (by simp)
      rw [if_neg h1] at h
      by_cases h2 : (w.username ≠ "" || w.password ≠ "") = true
      · rw [if_pos h2] at h; exact absurd h (by simp)
      rw [if_neg h2] at h
      by_cases h3 : (w.search ≠ "" || w.frag ≠ "") = true
      · rw [if_pos h3] at h; exact absurd h (by simp)
      simp only [Bool.and_eq_true, Bool.or_eq_true, decide_eq_true_eq, not_and_or,
        not_or, not_not] at h1 h2 h3
      refine ⟨w, rfl, ?_, h2.1, h2.2, h3.1, h3.2⟩
      tauto
    · rintro ⟨w', hw', hprot, hu', hpw', hs', hf'⟩
      rw [Option.some.injEq] at hw'
      subst hw'
      rw [if_neg (by simp only [Bool.and_eq_true, decide_eq_true_eq, not_and_or,
            not_not]; tauto),
          if_neg (by simp [hu', hpw']),
          if_neg (by simp [hs', hf'])]

/-- End-trimming yields a prefix. -/
lemma trimEnd_extends (X : List Char) :
    ∃ suffix, X = (X.reverse.dropWhile isC0OrSpace).reverse ++ suffix := by
  refine ⟨(X.reverse.takeWhile isC0OrSpace).reverse, ?_⟩
  rw [← List.reverse_append, List.takeWhile_append_dropWhile, List.reverse_reverse]

/-- Sanitization is the identity on inputs free of controls and spaces. -/
lemma urlSanitize_clean {l : List Char} (h : ∀ c ∈ l, isC0OrSpace c = false) :
    urlSanitize l = l := by
  have hfilter : l.filter (fun c => !isTabOrNl c) = l := by
    apply List.filter_eq_self.mpr
    intro c hc
    have := h c hc
    cases htn : isTabOrNl c
    · rfl
    · exfalso
      have hc0 : isC0OrSpace c = true := by
        simp only [isTabOrNl, Bool.or_eq_true, decide_eq_true_eq] at htn
        rcases htn with (rfl | rfl) | rfl <;> decide
      rw [this] at hc0
      exact Bool.false_ne_true hc0
  rw [urlSanitize, hfilter, jsTrimC0]
  have hdw : ∀ (m : List Char), (∀ c ∈ m, isC0OrSpace c = false) →
      m.dropWhile isC0OrSpace = m := by
    intro m hm
    cases m with
    | nil => rfl
    | cons x xs => exact dropWhile_cons_false (hm x (by simp))
  rw [hdw l h, hdw l.reverse (fun c hc => h c (List.mem_reverse.mp hc)),
    List.reverse_reverse]

/-- A validated SMP URL still parses after the NAPTR resolver strips one
trailing slash: the stripped character always lies beyond the scheme and
authority, whose shape alone decides parse success. -/
lemma isValidSMPUrl_strip_isSome {u0 : String} (h : isValidSMPUrl u0 = true) :
    (urlParse (stripOneTrailingSlash u0)).isSome = true := by
  obtain ⟨w, hp, hprot, -, -, -, -⟩ := isValidSMPUrl_iff.mp h
  rw [stripOneTrailingSlash]
  by_cases hs : strEndsWithSlash u0 = true
  case neg =>
    rw [if_neg hs, hp]; rfl
  case pos =>
    rw [if_pos hs]
    have hcore : urlParseCore (urlSanitize u0.data) = some w := hp
    obtain ⟨c0, body, slashes, auth, R, a, hcs, hc0, hbody, hspec, hsl, hauth, hne,
      hpa, hRshape, -⟩ := urlParseCore_special_decomp hcore hprot
    have hlast : u0.data.getLast? = some '/' := by
      simpa [strEndsWithSlash] using hs
    obtain ⟨m, hm1, hm2⟩ := urlSanitize_slash hlast
    obtain ⟨la, hla, hlaC0⟩ := parseAuthority_last hpa
    have hcs' : urlSanitize u0.data = (c0 :: (body ++ ':' :: (slashes ++ auth))) ++ R := by
      rw [hcs]; simp [List.append_assoc]
    have hPreLast : (c0 :: (body ++ ':' :: (slashes ++ auth))).getLast? = some la := by
      rw [show c0 :: (body ++ ':' :: (slashes ++ auth)) =
        (c0 :: (body ++ ':' :: slashes)) ++ auth from by simp,
        getLast?_append_right hne, hla]
    have hcsLast : (urlSanitize u0.data).getLast? = some '/' := by
      rw [hm1]; exact List.getLast?_concat _
    have hRlast : R.getLast? = some '/' := by
      cases hR0 : R with
      | nil =>
          exfalso
          rw [hcs', hR0, List.append_nil, hPreLast, Option.some.injEq] at hcsLast
          have hmem := mem_of_getLast?Eq hla
          have hae := hauth la hmem
          rw [hcsLast] at hae
          exact absurd hae (by decide)
      | cons d R' =>
          rw [hcs', getLast?_append_right (by rw [hR0]; simp)] at hcsLast
          rw [← hR0]; exact hcsLast
    obtain ⟨R1, hR1⟩ := List.getLast?_eq_some_iff.mp hRlast
    have hmEq : m = (c0 :: (body ++ ':' :: (slashes ++ auth))) ++ R1 := by
      have h1 : m ++ ['/'] = ((c0 :: (body ++ ':' :: (slashes ++ auth))) ++ R1) ++ ['/'] := by
        rw [← hm1, hcs', hR1, List.append_assoc]
      have h2 := congrArg List.dropLast h1
      rw [List.dropLast_concat, List.dropLast_concat] at h2
      exact h2
    have hsan2 : urlSanitize u0.data.dropLast =
        (c0 :: (body ++ ':' :: (slashes ++ auth))) ++
          (R1.reverse.dropWhile isC0OrSpace).reverse := by
      rw [hm2, hmEq]
      exact trimEnd_append_keep hPreLast hlaC0
    have hstr : (⟨u0.data.dropLast⟩ : String).data = u0.data.dropLast := rfl
    rw [urlParse, hstr, hsan2]
    have hassoc : (c0 :: (body ++ ':' :: (slashes ++ auth))) ++
          (R1.reverse.dropWhile isC0OrSpace).reverse =
        c0 :: (body ++ ':' :: (slashes ++
          (auth ++ (R1.reverse.dropWhile isC0OrSpace).reverse))) := by
      simp [List.append_assoc]
    rw [hassoc, urlParseCore_eval_special hc0 hbody hspec hsl hauth hne ?_, hpa]
    · rfl
    · cases hR'0 : (R1.reverse.dropWhile isC0OrSpace).reverse with
      | nil => exact Or.inl rfl
      | cons d rest' =>
          refine Or.inr ⟨d, rest', rfl, ?_⟩
          obtain ⟨suf, hsuf⟩ := trimEnd_extends R1
          have hhead : R.head? = some d := by
            rw [hR1, hsuf, hR'0]
            simp
          rcases hRshape with hR0 | ⟨d0, R0, hR0, hd0⟩
          · rw [hR0] at hhead; exact absurd hhead (by simp)
          · rw [hR0] at hhead
            simp only [List.head?_cons, Option.some.injEq] at hhead
            rw [← hhead]; exact hd0

/-- Appending one `'/'` to a clean validated SMP URL keeps it valid: the
new character lands in the path region. -/
lemma isValidSMPUrl_append_slash {u : String} (hval : isValidSMPUrl u = true)
    (hclean : ∀ c ∈ u.data, isC0OrSpace c = false)
    (hq : '?' ∉ u.data) (hh : '#' ∉ u.data) :
    isValidSMPUrl (u ++ "/") = true := by
  obtain ⟨w, hp, hprot, hun, hpw, -, -⟩ := isValidSMPUrl_iff.mp hval
  have hcore : urlParseCore (urlSanitize u.data) = some w := hp
  have hid : urlSanitize u.data = u.data := urlSanitize_clean hclean
  rw [hid] at hcore
  obtain ⟨c0, body, slashes, auth, R, a, hcs, hc0, hbody, hspec, hsl, hauth, hne,
    hpa, hRshape, hw⟩ := urlParseCore_special_decomp hcore hprot
  have hdata2 : (u ++ "/").data = u.data ++ ['/'] := by
    simp [String.data_append]
  have hclean2 : ∀ c ∈ (u ++ "/").data, isC0OrSpace c = false := by
    rw [hdata2]
    intro c hc
    rcases List.mem_append.mp hc with hc | hc
    · exact hclean c hc
    · simp only [List.mem_singleton] at hc; subst hc; decide
  have hsan2 : urlSanitize (u ++ "/").data = u.data ++ ['/'] := by
    rw [show urlSanitize (u ++ "/").data = urlSanitize ((u ++ "/").data) from rfl,
      urlSanitize_clean hclean2, hdata2]
  have hassoc : u.data ++ ['/'] =
      c0 :: (body ++ ':' :: (slashes ++ (auth ++ (R ++ ['/'])))) := by
    rw [hcs]; simp [List.append_assoc]
  have hRshape2 : R ++ ['/'] = [] ∨
      ∃ d R', R ++ ['/'] = d :: R' ∧ isAuthChar d = false := by
    rcases hRshape with rfl | ⟨d, R', rfl, hd⟩
    · exact Or.inr ⟨'/', [], rfl, by decide⟩
    · exact Or.inr ⟨d, R' ++ ['/'], rfl, hd⟩
  have heval := urlParseCore_eval_special hc0 hbody hspec hsl hauth hne hRshape2
  have hparse2 : urlParse (u ++ "/") =
      some (mkSpecialUrl (asciiLower (c0 :: body)) a (R ++ ['/'])) := by
    rw [urlParse, hsan2, hassoc, heval, hpa]; rfl
  -- the appended slash cannot introduce a query or fragment
  have hRsub : ∀ c ∈ R, c ∈ u.data := by
    intro c hc
    rw [hcs]
    simp only [List.mem_cons, List.mem_append]
    tauto
  have hnoq : ∀ c ∈ R ++ ['/'], (c ≠ '#') = True ∧ (c ≠ '?') = True := by
    intro c hc
    rcases List.mem_append.mp hc with hc | hc
    · constructor <;> simp only [eq_iff_iff, iff_true]
      · intro hcon; subst hcon; exact hh (hRsub _ hc)
      · intro hcon; subst hcon; exact hq (hRsub _ hc)
    · simp only [List.mem_singleton] at hc; subst hc
      constructor <;> simp
  apply isValidSMPUrl_iff.mpr
  refine ⟨_, hparse2, ?_, ?_, ?_, ?_, ?_⟩
  · rw [mkSpecialUrl_protocol]
    rw [hw, mkSpecialUrl_protocol] at hprot
    exact hprot
  · rw [hw] at hun; exact hun
  · rw [hw] at hpw; exact hpw
  · show mkSearch (splitPathQueryFrag (R ++ ['/'])).2.1 = ""
    rw [splitPathQueryFrag]
    have h1 : (R ++ ['/']).takeWhile (· ≠ '#') = R ++ ['/'] :=
      List.takeWhile_eq_self_iff.mpr (fun c hc => by
        simpa using (hnoq c hc).1)
    simp only [h1]
    have h2 : (R ++ ['/']).dropWhile (· ≠ '?') = [] :=
      List.dropWhile_eq_nil_iff.mpr (fun c hc => by
        simpa using (hnoq c hc).2)
    rw [h2]
    rfl
  · show mkFrag (splitPathQueryFrag (R ++ ['/'])).2.2 = ""
    rw [splitPathQueryFrag]
    have h2 : (R ++ ['/']).dropWhile (· ≠ '#') = [] :=
      List.dropWhile_eq_nil_iff.mpr (fun c hc => by
        simpa using (hnoq c hc).1)
    rw [h2]
    rfl

/-! ## Structural lemmas about the pipeline -/

/-- Every `resolveM` outcome is an early/caught unregistered result, the
parked branch's endpoint-free success, or a success whose endpoint info
came from `extractEndpointInfo`. -/
lemma resolveM_shape (env : Env) (dom pid : String) (opts : ResolveOptions) :
    (∃ tr err, resolveM env dom pid opts = unregOut pid tr err) ∨
    (∃ sm u tr, resolveM env dom pid opts =
      successOut env dom opts pid sm ⟨u, none, none⟩ tr) ∨
    (∃ smpUrl sm ep tr2 tr,
      extractEndpointInfoM env sm smpUrl pid = (.ok ep, tr2) ∧
      resolveM env dom pid opts = successOut env dom opts pid sm ep tr) := by
  simp only [resolveM]
  repeat' split
  all_goals first
    | exact Or.inl ⟨_, _, rfl⟩
    | exact Or.inr (Or.inl ⟨_, _, _, rfl⟩)
    | exact Or.inr (Or.inr ⟨_, _, _, _, _, by assumption, rfl⟩)

/-- The diagnostics of a successful `extractEndpointInfo` are absent or a
single entry. -/
lemma extractEndpointInfoM_diag (env : Env) (md : SMResult) (smpUrl pid : String) :
    ∀ ep tr, extractEndpointInfoM env md smpUrl pid = (.ok ep, tr) →
      ep.diagnostics = none ∨ ∃ e, ep.diagnostics = some ⟨[e]⟩ := by
  intro ep tr h
  rw [extractEndpointInfoM] at h
  rcases hu : urlParse smpUrl with - | u <;>
    simp only [hu, Prod.mk.injEq, Except.ok.injEq, reduceCtorEq, false_and] at h
  rcases hdt : md.documentTypes with - | ⟨dt, dts⟩ <;>
    simp only [hdt, Prod.mk.injEq, Except.ok.injEq, reduceCtorEq, false_and] at h
  · obtain ⟨h1, -⟩ := h; subst h1; exact Or.inl rfl
  rcases hf : env.followRedirects (metadataUrlFor smpUrl pid dt) with e | resp <;>
    simp only [hf, Prod.mk.injEq, Except.ok.injEq, reduceCtorEq, false_and] at h
  · obtain ⟨h1, -⟩ := h; subst h1; exact Or.inr ⟨_, rfl⟩
  by_cases h200 : resp.statusCode = 200
  · rw [if_pos h200] at h
    rcases hp : env.parseServiceMetadata resp.body with e | sm <;>
      simp only [hp, Prod.mk.injEq, Except.ok.injEq, reduceCtorEq, false_and] at h
    · obtain ⟨h1, -⟩ := h; subst h1; exact Or.inr ⟨_, rfl⟩
    · obtain ⟨h1, -⟩ := h; subst h1; exact Or.inl rfl
  · rw [if_neg h200] at h
    simp only [Prod.mk.injEq, Except.ok.injEq] at h
    obtain ⟨h1, -⟩ := h; subst h1; exact Or.inr ⟨_, rfl⟩

/-- C2: in every result of `resolve` — error paths included —
`isRegistered` holds iff the status is not `unregistered`,
`hasActiveEndpoints` holds iff the status is `active`, and both hold iff
an endpoint was selected and at least one document type was discovered. -/
theorem resolve_status_invariants (env : Env) (dom pid : String) (opts : ResolveOptions) :
    ((resolveM env dom pid opts).info.isRegistered = true ↔
      (resolveM env dom pid opts).info.registrationStatus ≠ RegStatus.unregistered) ∧
    ((resolveM env dom pid opts).info.hasActiveEndpoints = true ↔
      (resolveM env dom pid opts).info.registrationStatus = RegStatus.active) ∧
    ((resolveM env dom pid opts).info.hasActiveEndpoints = true ↔
      ((resolveM env dom pid opts).selEndpoint.isSome = true ∧
        (resolveM env dom pid opts).docTypes ≠ [])) := by
  have key : ∀ (sm : SMResult) (ep : EndpointInfoT) (tr : List Event),
      let r := successOut env dom opts pid sm ep tr
      (r.info.isRegistered = true ↔ r.info.registrationStatus ≠ RegStatus.unregistered) ∧
      (r.info.hasActiveEndpoints = true ↔ r.info.registrationStatus = RegStatus.active) ∧
      (r.info.hasActiveEndpoints = true ↔
        (r.selEndpoint.isSome = true ∧ r.docTypes ≠ [])) := by
    intro sm ep tr
    have hreg : (successOut env dom opts pid sm ep tr).info.registrationStatus =
        if (ep.endpoint.isSome && decide (sm.documentTypes ≠ [])) then
          RegStatus.active else RegStatus.parked := rfl
    have hact : (successOut env dom opts pid sm ep tr).info.hasActiveEndpoints =
        (ep.endpoint.isSome && decide (sm.documentTypes ≠ [])) := rfl
    have hisr : (successOut env dom opts pid sm ep tr).info.isRegistered = true := rfl
    have hsel : (successOut env dom opts pid sm ep tr).selEndpoint = ep.endpoint := rfl
    have hdoc : (successOut env dom opts pid sm ep tr).docTypes = sm.documentTypes := rfl
    refine ⟨?_, ?_, ?_⟩
    · rw [hisr, hreg]
      cases hA : (ep.endpoint.isSome && decide (sm.documentTypes ≠ [])) <;> simp
    · rw [hact, hreg]
      cases hA : (ep.endpoint.isSome && decide (sm.documentTypes ≠ [])) <;> simp
    · rw [hact, hsel, hdoc]
      simp [Bool.and_eq_true, decide_eq_true_eq]
  rcases resolveM_shape env dom pid opts with ⟨tr, err, h⟩ | ⟨sm, u, tr, h⟩ |
      ⟨smpUrl, sm, ep, tr2, tr, -, h⟩ <;> rw [h]
  · simp [unregOut]
  · exact key sm ⟨u, none, none⟩ tr
  · exact key sm ep tr

/-- C10: the diagnostics of every `resolve` result, when present, hold
exactly one `smpErrors` entry (only the first document type's
ServiceMetadata is ever fetched). -/
theorem resolve_diagnostics_singleton (env : Env) (dom pid : String) (opts : ResolveOptions) :
    (resolveM env dom pid opts).info.diagnostics = none ∨
    ∃ e, (resolveM env dom pid opts).info.diagnostics = some ⟨[e]⟩ := by
  rcases resolveM_shape env dom pid opts with ⟨tr, err, h⟩ | ⟨sm, u, tr, h⟩ |
      ⟨smpUrl, sm, ep, tr2, tr, heq, h⟩ <;> rw [h]
  · left; rfl
  · left; simp [successOut]
  · have := extractEndpointInfoM_diag env sm smpUrl pid ep tr2 heq
    simpa [successOut] using this

/-! ## NAPTR extraction lemmas -/

/-- Whatever `extractSMPUrlCore` returns passed the URL validation. -/
lemma extractSMPUrlCore_valid {records : List DNSRecord} {u : String}
    (h : extractSMPUrlCore records = some u) : isValidSMPUrl u = true := by
  rw [extractSMPUrlCore] at h
  cases hs : sortStable naptrLt
      (records.filter (fun r => asciiLowerStr r.service == "meta:smp")) with
  | nil => simp only [hs] at h; exact absurd h (by simp)
  | cons first rest =>
      simp only [hs] at h
      by_cases hre : first.regexp = ""
      · rw [if_pos hre] at h; exact absurd h (by simp)
      rw [if_neg hre] at h
      cases hb : bangMatch2 first.regexp.data with
      | none => simp only [hb] at h; exact absurd h (by simp)
      | some repl =>
          simp only [hb] at h
          by_cases hv : isValidSMPUrl ⟨repl⟩ = true
          · rw [if_pos hv] at h
            rw [Option.some.injEq] at h
            subst h; exact hv
          · rw [if_neg hv] at h; exact absurd h (by simp)

/-- The URL handed out by the NAPTR resolver always parses. -/
lemma extractSMPUrlNaptr_parses {records : List DNSRecord} {u : String}
    (h : extractSMPUrlNaptr records = some u) : ∃ w, urlParse u = some w := by
  rw [extractSMPUrlNaptr] at h
  rcases Option.map_eq_some'.mp h with ⟨u0, hc, rfl⟩
  have hv := extractSMPUrlCore_valid hc
  have := isValidSMPUrl_strip_isSome hv
  exact Option.isSome_iff_exists.mp this

/-- C3: when DNS yields an SMP base URL but the ServiceGroup fetch
returns HTTP 404, the result is registered and parked, with no active
endpoints, no endpoint, and no error — never unregistered. -/
theorem resolve_parked_on_404 (env : Env) (dom pid : String) (opts : ResolveOptions)
    (records : List DNSRecord) (smpUrl : String) (resp : HttpResp)
    (hpid : (jsSplit ':' pid).getD 0 "" ≠ "" ∧ (jsSplit ':' pid).getD 1 "" ≠ "")
    (hdns : env.resolveNAPTR
      (hashParticipantId ((jsSplit ':' pid).getD 1 "") ((jsSplit ':' pid).getD 0 "") ++
        ".iso6523-actorid-upis." ++ dom) = .ok records)
    (hex : extractSMPUrlNaptr records = some smpUrl)
    (hfetch : env.followRedirects (serviceGroupUrl smpUrl pid) = .ok resp)
    (hstatus : resp.statusCode = 404) :
    (resolveM env dom pid opts).info.isRegistered = true ∧
    (resolveM env dom pid opts).info.registrationStatus = RegStatus.parked ∧
    (resolveM env dom pid opts).info.hasActiveEndpoints = false ∧
    (resolveM env dom pid opts).info.endpoint = none ∧
    (resolveM env dom pid opts).selEndpoint = none ∧
    (resolveM env dom pid opts).info.error = none := by
  obtain ⟨w, hw⟩ := extractSMPUrlNaptr_parses hex
  have hfsm : fetchServiceMetadataM env smpUrl pid =
      (.error "SMP returned status 404",
        [Event.http (serviceGroupUrl smpUrl pid)]) := by
    simp only [fetchServiceMetadataM, hfetch, hstatus]
    rw [if_pos (by decide)]
    rw [show ("SMP returned status " ++ toString 404) = "SMP returned status 404" from by
      decide]
  have hr : resolveM env dom pid opts =
      successOut env dom opts pid
        ⟨⟨(jsSplit ':' pid).getD 0 "", (jsSplit ':' pid).getD 1 ""⟩, [], some smpUrl⟩
        ⟨w.hostname, none, none⟩
        ([Event.dns (hashParticipantId ((jsSplit ':' pid).getD 1 "")
            ((jsSplit ':' pid).getD 0 "") ++ ".iso6523-actorid-upis." ++ dom)] ++
          [Event.http (serviceGroupUrl smpUrl pid)]) := by
    simp only [resolveM]
    rw [if_neg (by tauto)]
    simp only [hdns, hex, hfsm]
    rw [if_pos (by decide)]
    simp only [hw]
  rw [hr]
  refine ⟨rfl, ?_, ?_, ?_, rfl, rfl⟩
  · show (if (Option.isSome (none : Option EndpointDetail) &&
      decide (([] : List DocType) ≠ [])) then RegStatus.active else RegStatus.parked) =
      RegStatus.parked
    rfl
  · rfl
  · show (if opts.fetchDocumentTypes then (none : Option EndpointDetail) else none) = none
    split <;> rfl

/-- Witness for C3 at a concrete environment. -/
theorem resolve_parked_on_404_witness :
    (resolveM envParked "sml.test" "0208:1" {}).info.isRegistered = true ∧
    (resolveM envParked "sml.test" "0208:1" {}).info.registrationStatus = RegStatus.parked ∧
    (resolveM envParked "sml.test" "0208:1" {}).info.hasActiveEndpoints = false ∧
    (resolveM envParked "sml.test" "0208:1" {}).info.endpoint = none ∧
    (resolveM envParked "sml.test" "0208:1" {}).selEndpoint = none ∧
    (resolveM envParked "sml.test" "0208:1" {}).info.error = none :=
  resolve_parked_on_404 envParked "sml.test" "0208:1" {} [recPlain]
    "http://smp.example.com" ⟨404, "not found"⟩ (by decide) rfl (by decide) rfl rfl

/-! ## Canonicalizer lemmas (C4, C5) -/

lemma str_eq_empty_iff (s : String) : s = "" ↔ s.data = [] := by
  constructor
  · intro h; rw [h]
  · intro h
    cases s with
    | mk d => rw [show d = [] from h]

lemma splitFirst_append {pre suf : List Char} (h : ':' ∉ pre) :
    splitFirst ':' (pre ++ ':' :: suf) = some (pre, suf) := by
  induction pre with
  | nil => simp [splitFirst]
  | cons c pre' ih =>
      have hc : ¬ c = ':' := fun hc => h (by rw [hc]; exact List.mem_cons_self _ _)
      have h' : ':' ∉ pre' := fun hm => h (List.mem_cons_of_mem c hm)
      simp only [List.cons_append, splitFirst, if_neg hc, List.append_eq]
      rw [ih h']
      rfl

lemma jsSplitChars_colon_append {pre rest : List Char} (h : ':' ∉ pre) :
    jsSplitChars ':' (pre ++ ':' :: rest) = pre :: jsSplitChars ':' rest := by
  induction pre with
  | nil => simp [jsSplitChars]
  | cons c pre' ih =>
      have hc : ¬ c = ':' := fun hc => h (by rw [hc]; exact List.mem_cons_self _ _)
      have h' : ':' ∉ pre' := fun hm => h (List.mem_cons_of_mem c hm)
      rw [List.cons_append, jsSplitChars, if_neg hc, ih h']

/-- The first trace action of a resolution whose id parses is the DNS
query for the hash of the first two `split(':')` segments. -/
lemma resolveM_first_dns (env : Env) (dom pid : String) (opts : ResolveOptions)
    (h0 : (jsSplit ':' pid).getD 0 "" ≠ "") (h1 : (jsSplit ':' pid).getD 1 "" ≠ "") :
    (resolveM env dom pid opts).trace.head? = some (.dns
      (hashParticipantId ((jsSplit ':' pid).getD 1 "") ((jsSplit ':' pid).getD 0 "") ++
        ".iso6523-actorid-upis." ++ dom)) := by
  simp only [resolveM]
  rw [if_neg (by tauto)]
  rcases hdns : env.resolveNAPTR _ with e | records
  · rfl
  · simp only []
    rcases hex : extractSMPUrlNaptr records with - | smpUrl
    · rfl
    · simp only []
      rcases hfsm : fetchServiceMetadataM env smpUrl pid with ⟨out, t1⟩
      cases out with
      | error e =>
          simp only []
          split
          · rcases hup : urlParse smpUrl with - | w <;> rfl
          · rfl
      | ok sm =>
          simp only []
          rcases hep : extractEndpointInfoM env sm smpUrl pid with ⟨out2, t2⟩
          cases out2 <;> rfl

/-- C4 (amended): `resolve` rejects exactly the inputs whose first or
second `split(':')` segment is missing or empty — unregistered, a fixed
nonempty error, no I/O; it never runs the regex validation, so a
parseable id with regex-invalid scheme or value still issues the DNS
query. -/
theorem resolve_invalid_input_behavior (env : Env) (dom pid : String)
    (opts : ResolveOptions) :
    ((jsSplit ':' pid).getD 0 "" = "" ∨ (jsSplit ':' pid).getD 1 "" = "" →
      (resolveM env dom pid opts).info.registrationStatus = RegStatus.unregistered ∧
      (resolveM env dom pid opts).info.isRegistered = false ∧
      (resolveM env dom pid opts).info.error =
        some "Invalid participant ID format. Expected: scheme:value" ∧
      (resolveM env dom pid opts).trace = []) ∧
    ((jsSplit ':' pid).getD 0 "" ≠ "" → (jsSplit ':' pid).getD 1 "" ≠ "" →
      (resolveM env dom pid opts).trace.head? = some (.dns
        (hashParticipantId ((jsSplit ':' pid).getD 1 "") ((jsSplit ':' pid).getD 0 "") ++
          ".iso6523-actorid-upis." ++ dom))) := by
  constructor
  · intro h
    have hr : resolveM env dom pid opts =
        unregOut pid [] "Invalid participant ID format. Expected: scheme:value" := by
      simp only [resolveM]
      rw [if_pos h]
    rw [hr]
    exact ⟨rfl, rfl, rfl, rfl⟩
  · exact resolveM_first_dns env dom pid opts

/-- Witness for C4 (amended) at concrete inputs: `"a:"` is rejected with
no I/O, while regex-invalid `"a:@"` (`validateParticipantId "a" "@"`
is `false`) still issues the DNS query. -/
theorem resolve_invalid_input_behavior_witness :
    (resolveM envNoDns "sml.test" "a:" {}).trace = [] ∧
    validateParticipantId "a" "@" = false ∧
    (resolveM envNoDns "sml.test" "a:@" {}).trace.head? = some (.dns
      (hashParticipantId "@" "a" ++ ".iso6523-actorid-upis." ++ "sml.test")) :=
  ⟨((resolve_invalid_input_behavior envNoDns "sml.test" "a:" {}).1 (by decide)).2.2.2,
   by decide,
   (resolve_invalid_input_behavior envNoDns "sml.test" "a:@" {}).2 (by decide) (by decide)⟩

/-- Counterexample to C4 as stated: `"a:@"` fails the canonicalizer's
regex validation, yet `resolve` issues a DNS query for it (the result is
still unregistered with an error only because DNS finds nothing). -/
theorem resolve_regex_invalid_still_queries_dns :
    validateParticipantId "a" "@" = false ∧
    (resolveM envNoDns "sml.test" "a:@" {}).trace ≠ [] := by
  constructor
  · decide
  · intro hc
    have := resolveM_first_dns envNoDns "sml.test" "a:@" {} (by decide) (by decide)
    rw [hc] at this
    exact absurd this (by simp)

/-- C5 (amended): the exported `parseParticipantId` splits at the first
`':'` and keeps the remainder verbatim, but `resolve` splits on every
`':'` and hashes only `segment0 ++ ":" ++ segment1`, discarding anything
after a second `':'` and rejecting ids whose second segment is empty. -/
theorem participant_id_split_semantics (env : Env) (dom : String)
    (opts : ResolveOptions) (pre suf a b c : String)
    (hpre : ':' ∉ pre.data) (ha : ':' ∉ a.data) (hb : ':' ∉ b.data) :
    (parseParticipantId (pre ++ ":" ++ suf) =
      if pre = "" ∨ suf = "" then none else some (pre, suf)) ∧
    ((jsSplit ':' (a ++ ":" ++ b ++ ":" ++ c)).getD 0 "" = a ∧
      (jsSplit ':' (a ++ ":" ++ b ++ ":" ++ c)).getD 1 "" = b) ∧
    (a ≠ "" → b ≠ "" →
      (resolveM env dom (a ++ ":" ++ b ++ ":" ++ c) opts).trace.head? =
        some (.dns (hashParticipantId b a ++ ".iso6523-actorid-upis." ++ dom))) := by
  have hdata : (pre ++ ":" ++ suf).data = pre.data ++ ':' :: suf.data := by
    simp [String.data_append]
  have habc : (a ++ ":" ++ b ++ ":" ++ c).data =
      a.data ++ ':' :: (b.data ++ ':' :: c.data) := by
    simp [String.data_append]
  have hsplit : jsSplit ':' (a ++ ":" ++ b ++ ":" ++ c) =
      a :: b :: (jsSplitChars ':' c.data).map (fun l => ⟨l⟩) := by
    rw [jsSplit, habc, jsSplitChars_colon_append ha, jsSplitChars_colon_append hb]
    rfl
  refine ⟨?_, ?_, ?_⟩
  · rw [parseParticipantId, hdata, splitFirst_append hpre]
    show (if pre.data.isEmpty || suf.data.isEmpty then (none : Option (String × String))
          else some (⟨pre.data⟩, ⟨suf.data⟩)) =
        if pre = "" ∨ suf = "" then none else some (pre, suf)
    have hpe : (pre.data.isEmpty || suf.data.isEmpty) = true ↔ (pre = "" ∨ suf = "") := by
      rw [str_eq_empty_iff pre, str_eq_empty_iff suf]
      cases hp : pre.data <;> cases hs : suf.data <;> simp [List.isEmpty]
    by_cases hc : pre = "" ∨ suf = ""
    · rw [if_pos (hpe.mpr hc), if_pos hc]
    · rw [if_neg (fun hx => hc (hpe.mp hx)), if_neg hc]
  · rw [hsplit]
    exact ⟨rfl, rfl⟩
  · intro hane hbne
    have := resolveM_first_dns env dom (a ++ ":" ++ b ++ ":" ++ c) opts
      (by rw [hsplit]; simpa using hane) (by rw [hsplit]; simpa using hbne)
    rw [hsplit] at this
    simpa using this

/-- Witness for C5 (amended) at concrete inputs. -/
theorem participant_id_split_semantics_witness :
    parseParticipantId ("0208" ++ ":" ++ "1:2") =
      (if ("0208" : String) = "" ∨ ("1:2" : String) = "" then none
        else some ("0208", "1:2")) ∧
    (resolveM envNoDns "sml.test" ("0208" ++ ":" ++ "1" ++ ":" ++ "2") {}).trace.head? =
      some (.dns (hashParticipantId "1" "0208" ++ ".iso6523-actorid-upis." ++ "sml.test")) :=
  ⟨(participant_id_split_semantics envNoDns "sml.test" {} "0208" "1:2" "0208" "1" "2"
      (by decide) (by decide) (by decide)).1,
   (participant_id_split_semantics envNoDns "sml.test" {} "0208" "1:2" "0208" "1" "2"
      (by decide) (by decide) (by decide)).2.2 (by decide) (by decide)⟩

set_option maxRecDepth 10000 in
/-- Counterexample to C5 as stated: on `"0208:1:2"` `resolve` queries DNS
for the hash of `"0208:1"`, not of the full remainder `"0208:1:2"`. -/
theorem resolve_hash_drops_second_colon :
    (resolveM envNoDns "sml.test" "0208:1:2" {}).trace =
      [.dns (hashParticipantId "1" "0208" ++ ".iso6523-actorid-upis." ++ "sml.test")] ∧
    (resolveM envNoDns "sml.test" "0208:1:2" {}).trace ≠
      [.dns (hashParticipantId "1:2" "0208" ++ ".iso6523-actorid-upis." ++ "sml.test")] := by
  constructor <;> decide

/-! ## Trailing-slash handling (C7) -/

lemma stripOneTrailingSlash_append (u : String) :
    stripOneTrailingSlash (u ++ "/") = u := by
  have hdata : (u ++ "/").data = u.data ++ ['/'] := by simp [String.data_append]
  have h1 : strEndsWithSlash (u ++ "/") = true := by
    rw [strEndsWithSlash, hdata, List.getLast?_concat]
    rfl
  rw [stripOneTrailingSlash, if_pos h1]
  show (⟨(u ++ "/").data.dropLast⟩ : String) = u
  rw [hdata, List.dropLast_concat]

/-- C7 (amended): `NAPTRResolver.extractSMPUrl` (the variant `SMPResolver`
uses) is the DoH variant followed by exactly one trailing-`'/'` removal
from the validated URL; appending one `'/'` to a clean valid base URL
keeps it valid and is undone by the strip, so two NAPTR replacements
differing only by one trailing `'/'` on a slash-free base yield the same
extracted URL and identical downstream ServiceGroup/ServiceMetadata fetch
behaviour.  (The result can still end in `'/'` when the replacement ends
in `"//"`, so "never ends in '/'" does not hold.) -/
theorem extractSMPUrl_trailing_slash_semantics (records : List DNSRecord)
    (env : Env) (u pid : String)
    (hval : isValidSMPUrl u = true)
    (hclean : ∀ c ∈ u.data, isC0OrSpace c = false)
    (hq : '?' ∉ u.data) (hh : '#' ∉ u.data)
    (hns : strEndsWithSlash u = false) :
    extractSMPUrlNaptr records = (extractSMPUrlDoH records).map stripOneTrailingSlash ∧
    isValidSMPUrl (u ++ "/") = true ∧
    stripOneTrailingSlash (u ++ "/") = u ∧
    stripOneTrailingSlash u = u ∧
    (extractSMPUrlDoH records = some (u ++ "/") →
      extractSMPUrlNaptr records = some u ∧
      serviceGroupUrl ((extractSMPUrlNaptr records).getD "") pid = serviceGroupUrl u pid ∧
      fetchServiceMetadataM env ((extractSMPUrlNaptr records).getD "") pid =
        fetchServiceMetadataM env u pid) := by
  refine ⟨rfl, isValidSMPUrl_append_slash hval hclean hq hh,
    stripOneTrailingSlash_append u, ?_, ?_⟩
  · rw [stripOneTrailingSlash, if_neg (by rw [hns]; exact Bool.false_ne_true)]
  · intro hdoh
    have hcore : extractSMPUrlCore records = some (u ++ "/") := hdoh
    have hm : extractSMPUrlNaptr records = some (stripOneTrailingSlash (u ++ "/")) := by
      rw [extractSMPUrlNaptr, hcore]
      rfl
    rw [stripOneTrailingSlash_append] at hm
    refine ⟨hm, ?_, ?_⟩ <;> rw [hm] <;> rfl

/-- Witness for C7 (amended) at a concrete record whose replacement is
the clean base URL plus one trailing slash. -/
theorem extractSMPUrl_trailing_slash_semantics_witness :
    isValidSMPUrl ("http://smp.example.com" ++ "/") = true ∧
    extractSMPUrlNaptr [⟨100, 10, "U", "Meta:SMP",
        "!^.*$!http://smp.example.com/!", ""⟩] = some "http://smp.example.com" :=
  ⟨(extractSMPUrl_trailing_slash_semantics [] envNoDns "http://smp.example.com" "p"
      (by decide) (by decide) (by decide) (by decide) (by decide)).2.1,
   ((extractSMPUrl_trailing_slash_semantics
      [⟨100, 10, "U", "Meta:SMP", "!^.*$!http://smp.example.com/!", ""⟩]
      envNoDns "http://smp.example.com" "p"
      (by decide) (by decide) (by decide) (by decide) (by decide)).2.2.2.2
      (by decide)).1⟩

/-- Counterexample to C7 as stated: a validated replacement ending in
`"//"` loses only one slash, so the URL returned by the NAPTR lookup can
still end in `'/'`. -/
theorem naptr_url_can_end_in_slash :
    extractSMPUrlNaptr [⟨100, 10, "U", "Meta:SMP",
        "!^.*$!http://smp.example.com//!", ""⟩] = some "http://smp.example.com/" ∧
    strEndsWithSlash "http://smp.example.com/" = true := by
  constructor <;> decide

/-! ## Business-card probe and the outer resolution (C9) -/

/-- C9 (amended): the business-card probe never alters the outer
resolution — with and without `includeBusinessCard` the result agrees on
every field except `businessEntity`, `smpHostname` and the trace — but
when the probe yields no card `getBusinessCard` substitutes the
placeholder entity (`name = "Unknown"`), so the returned
`businessEntity` field is present, not absent. -/
theorem resolve_business_card_semantics (env : Env) (smlDomain pid : String)
    (opts : ResolveOptions) :
    ((resolveM env smlDomain pid { opts with includeBusinessCard := true }).info.isRegistered =
        (resolveM env smlDomain pid { opts with includeBusinessCard := false }).info.isRegistered ∧
      (resolveM env smlDomain pid { opts with includeBusinessCard := true }).info.registrationStatus =
        (resolveM env smlDomain pid { opts with includeBusinessCard := false }).info.registrationStatus ∧
      (resolveM env smlDomain pid { opts with includeBusinessCard := true }).info.hasActiveEndpoints =
        (resolveM env smlDomain pid { opts with includeBusinessCard := false }).info.hasActiveEndpoints ∧
      (resolveM env smlDomain pid { opts with includeBusinessCard := true }).info.error =
        (resolveM env smlDomain pid { opts with includeBusinessCard := false }).info.error ∧
      (resolveM env smlDomain pid { opts with includeBusinessCard := true }).info.endpoint =
        (resolveM env smlDomain pid { opts with includeBusinessCard := false }).info.endpoint ∧
      (resolveM env smlDomain pid { opts with includeBusinessCard := true }).info.documentTypes =
        (resolveM env smlDomain pid { opts with includeBusinessCard := false }).info.documentTypes ∧
      (resolveM env smlDomain pid { opts with includeBusinessCard := true }).info.certificateInfo =
        (resolveM env smlDomain pid { opts with includeBusinessCard := false }).info.certificateInfo ∧
      (resolveM env smlDomain pid { opts with includeBusinessCard := true }).info.diagnostics =
        (resolveM env smlDomain pid { opts with includeBusinessCard := false }).info.diagnostics ∧
      (resolveM env smlDomain pid { opts with includeBusinessCard := true }).selEndpoint =
        (resolveM env smlDomain pid { opts with includeBusinessCard := false }).selEndpoint ∧
      (resolveM env smlDomain pid { opts with includeBusinessCard := true }).docTypes =
        (resolveM env smlDomain pid { opts with includeBusinessCard := false }).docTypes) ∧
    (∀ records smpUrl u,
      ¬((jsSplit ':' pid).getD 0 "" = "" ∨ (jsSplit ':' pid).getD 1 "" = "") →
      env.resolveNAPTR
          (hashParticipantId ((jsSplit ':' pid).getD 1 "") ((jsSplit ':' pid).getD 0 "") ++
            ".iso6523-actorid-upis." ++ smlDomain) = .ok records →
      extractSMPUrlNaptr records = some smpUrl →
      urlParse smpUrl = some u →
      (fetchBusinessCardXMLM env pid smpUrl).1 = none →
      (getBusinessCardM env smlDomain pid).1 = .ok (defaultEntity pid, u.hostname)) := by
  constructor
  · by_cases h0 : (jsSplit ':' pid).getD 0 "" = "" ∨ (jsSplit ':' pid).getD 1 "" = ""
    · simp only [resolveM]
      rw [if_pos h0, if_pos h0]
      exact ⟨rfl, rfl, rfl, rfl, rfl, rfl, rfl, rfl, rfl, rfl⟩
    · simp only [resolveM]
      rw [if_neg h0, if_neg h0]
      rcases hdns : env.resolveNAPTR _ with e | records
      · exact ⟨rfl, rfl, rfl, rfl, rfl, rfl, rfl, rfl, rfl, rfl⟩
      · simp only []
        rcases hex : extractSMPUrlNaptr records with - | smpUrl
        · exact ⟨rfl, rfl, rfl, rfl, rfl, rfl, rfl, rfl, rfl, rfl⟩
        · simp only []
          rcases hfsm : fetchServiceMetadataM env smpUrl pid with ⟨out1, t1⟩
          cases out1 with
          | error e =>
              simp only []
              by_cases h404 : strIncludes e "SMP returned status 404" = true
              · rw [if_pos h404, if_pos h404]
                rcases hup : urlParse smpUrl with - | w
                · exact ⟨rfl, rfl, rfl, rfl, rfl, rfl, rfl, rfl, rfl, rfl⟩
                · exact ⟨rfl, rfl, rfl, rfl, rfl, rfl, rfl, rfl, rfl, rfl⟩
              · rw [if_neg h404, if_neg h404]
                exact ⟨rfl, rfl, rfl, rfl, rfl, rfl, rfl, rfl, rfl, rfl⟩
          | ok sm =>
              simp only []
              rcases hep : extractEndpointInfoM env sm smpUrl pid with ⟨out2, t2⟩
              cases out2 with
              | error e2 => exact ⟨rfl, rfl, rfl, rfl, rfl, rfl, rfl, rfl, rfl, rfl⟩
              | ok epInfo => exact ⟨rfl, rfl, rfl, rfl, rfl, rfl, rfl, rfl, rfl, rfl⟩
  · intro records smpUrl u h0 hdns hex hup hfb
    simp only [getBusinessCardM]
    rw [if_neg h0]
    simp only [hdns, hex, hup]
    rcases hpair : fetchBusinessCardXMLM env pid smpUrl with ⟨ent, tb⟩
    rw [hpair] at hfb
    simp only at hfb
    subst hfb
    rfl

set_option maxRecDepth 10000 in
/-- Witness for C9 (amended) at `envParked` with `"0208:1"`: the probe
yields no card and `getBusinessCard` returns the placeholder entity. -/
theorem resolve_business_card_semantics_witness :
    (getBusinessCardM envParked "sml.test" "0208:1").1 =
      .ok (defaultEntity "0208:1",
        (⟨"http:", "", "", "smp.example.com", "", "/", "", ""⟩ : Url).hostname) :=
  (resolve_business_card_semantics envParked "sml.test" "0208:1" {}).2
    [recPlain] "http://smp.example.com"
    ⟨"http:", "", "", "smp.example.com", "", "/", "", ""⟩
    (by decide) rfl (by decide) (by decide) (by decide)

set_option maxRecDepth 10000 in
/-- Counterexample to C9 as stated: with `includeBusinessCard`, a probe
that yields no card still leaves `businessEntity` present — it holds the
placeholder entity, not nothing. -/
theorem resolve_business_entity_placeholder :
    (fetchBusinessCardXMLM envParked "0208:1" "http://smp.example.com").1 = none ∧
    (resolveM envParked "sml.test" "0208:1"
        { includeBusinessCard := true }).info.businessEntity =
      some (defaultEntity "0208:1") := by
  constructor <;> decide

/-! ## Probe request accounting (C8) -/

lemma probeLoop_trace_take (env : Env) (urls : List String) :
    ∃ k, k ≤ urls.length ∧ (probeLoop env urls).2 = urls.take k := by
  induction urls with
  | nil => exact ⟨0, Nat.le_refl 0, rfl⟩
  | cons u us ih =>
      cases hg : env.getWithTimeout u 5000 with
      | error e =>
          refine ⟨1, by simp, ?_⟩
          simp only [probeLoop, hg]
          rfl
      | ok resp =>
          by_cases hc : (resp.statusCode = 200 && trimStartsWithLt resp.body) = true
          · refine ⟨1, by simp, ?_⟩
            simp only [probeLoop, hg]
            rw [if_pos hc]
            rfl
          · obtain ⟨k, hk, ht⟩ := ih
            refine ⟨k + 1, by simpa using hk, ?_⟩
            rcases hp : probeLoop env us with ⟨e1, t1⟩
            rw [hp] at ht
            simp only [probeLoop, hg]
            rw [if_neg hc]
            simp only [hp]
            show u :: t1 = (u :: us).take (k + 1)
            rw [List.take_succ_cons, ← ht]

/-- C8: the business-card probe requests a take-prefix of the five HTTPS
pattern URLs then a take-prefix of the five HTTP ones (at most 10
requests); a thrown request ends the current pass at once, a non-200 (or
non-XML) status response moves on to the next pattern, an HTTPS pass that
returned skips HTTP entirely, and a failed HTTP pass ends the probe with
no card. -/
theorem business_card_probe_requests (env : Env) (pid baseUrl : String) :
    (∃ a b, a ≤ 5 ∧ b ≤ 5 ∧
      (fetchBusinessCardXMLM env pid baseUrl).2 =
        (((bcPatterns pid).map (fun p => httpsBaseOf baseUrl ++ p)).take a ++
          ((bcPatterns pid).map (fun p => httpBaseOf baseUrl ++ p)).take b).map Event.http) ∧
    (fetchBusinessCardXMLM env pid baseUrl).2.length ≤ 10 ∧
    (∀ u us e, env.getWithTimeout u 5000 = .error e →
      probeLoop env (u :: us) = (.failed, [u])) ∧
    (∀ u us resp, env.getWithTimeout u 5000 = .ok resp →
      (resp.statusCode = 200 && trimStartsWithLt resp.body) = false →
      probeLoop env (u :: us) = ((probeLoop env us).1, u :: (probeLoop env us).2)) ∧
    (∀ r t, probeLoop env ((bcPatterns pid).map (fun p => httpsBaseOf baseUrl ++ p)) =
        (.returned r, t) →
      fetchBusinessCardXMLM env pid baseUrl = (r, t.map Event.http)) ∧
    (∀ ex1 t1 t2,
      probeLoop env ((bcPatterns pid).map (fun p => httpsBaseOf baseUrl ++ p)) = (ex1, t1) →
      (∀ r, ex1 ≠ .returned r) →
      probeLoop env ((bcPatterns pid).map (fun p => httpBaseOf baseUrl ++ p)) = (.failed, t2) →
      fetchBusinessCardXMLM env pid baseUrl = (none, (t1 ++ t2).map Event.http)) := by
  have hlenS : ((bcPatterns pid).map (fun p => httpsBaseOf baseUrl ++ p)).length = 5 := by
    simp [bcPatterns]
  have hlenH : ((bcPatterns pid).map (fun p => httpBaseOf baseUrl ++ p)).length = 5 := by
    simp [bcPatterns]
  have hshape : ∃ a b, a ≤ 5 ∧ b ≤ 5 ∧
      (fetchBusinessCardXMLM env pid baseUrl).2 =
        (((bcPatterns pid).map (fun p => httpsBaseOf baseUrl ++ p)).take a ++
          ((bcPatterns pid).map (fun p => httpBaseOf baseUrl ++ p)).take b).map Event.http := by
    obtain ⟨k1, hk1, ht1⟩ :=
      probeLoop_trace_take env ((bcPatterns pid).map (fun p => httpsBaseOf baseUrl ++ p))
    rcases hps : probeLoop env ((bcPatterns pid).map (fun p => httpsBaseOf baseUrl ++ p))
      with ⟨ex1, t1⟩
    rw [hps] at ht1
    have ht1' : t1 = ((bcPatterns pid).map (fun p => httpsBaseOf baseUrl ++ p)).take k1 := ht1
    cases ex1 with
    | returned r =>
        refine ⟨k1, 0, hlenS ▸ hk1, by omega, ?_⟩
        simp only [fetchBusinessCardXMLM, hps]
        rw [ht1']
        simp
    | failed =>
        obtain ⟨k2, hk2, ht2⟩ :=
          probeLoop_trace_take env ((bcPatterns pid).map (fun p => httpBaseOf baseUrl ++ p))
        rcases hph : probeLoop env ((bcPatterns pid).map (fun p => httpBaseOf baseUrl ++ p))
          with ⟨ex2, t2⟩
        rw [hph] at ht2
        have ht2' : t2 = ((bcPatterns pid).map (fun p => httpBaseOf baseUrl ++ p)).take k2 := ht2
        refine ⟨k1, k2, hlenS ▸ hk1, hlenH ▸ hk2, ?_⟩
        cases ex2 <;> simp only [fetchBusinessCardXMLM, hps, hph] <;> rw [ht1', ht2']
    | exhausted =>
        obtain ⟨k2, hk2, ht2⟩ :=
          probeLoop_trace_take env ((bcPatterns pid).map (fun p => httpBaseOf baseUrl ++ p))
        rcases hph : probeLoop env ((bcPatterns pid).map (fun p => httpBaseOf baseUrl ++ p))
          with ⟨ex2, t2⟩
        rw [hph] at ht2
        have ht2' : t2 = ((bcPatterns pid).map (fun p => httpBaseOf baseUrl ++ p)).take k2 := ht2
        refine ⟨k1, k2, hlenS ▸ hk1, hlenH ▸ hk2, ?_⟩
        cases ex2 <;> simp only [fetchBusinessCardXMLM, hps, hph] <;> rw [ht1', ht2']
  refine ⟨hshape, ?_, ?_, ?_, ?_, ?_⟩
  · obtain ⟨a, b, ha, hb, ht⟩ := hshape
    rw [ht]
    simp only [List.length_map, List.length_append, List.length_take, hlenS, hlenH]
    omega
  · intro u us e hg
    simp [probeLoop, hg]
  · intro u us resp hg hc
    simp only [probeLoop, hg]
    rw [if_neg (by simp [hc])]
  · intro r t h
    simp only [fetchBusinessCardXMLM, h]
  · intro ex1 t1 t2 h1 hne h2
    cases ex1 with
    | returned r => exact absurd rfl (hne r)
    | failed => simp only [fetchBusinessCardXMLM, h1, h2]
    | exhausted => simp only [fetchBusinessCardXMLM, h1, h2]

/-- Witness for C8 at concrete environments: a thrown request fast-fails
the pass, a 404 response moves on to the next pattern. -/
theorem business_card_probe_requests_witness :
    probeLoop envNoDns ["https://a", "https://b"] = (.failed, ["https://a"]) ∧
    probeLoop envParked ["https://a"] =
      ((probeLoop envParked ([] : List String)).1,
        "https://a" :: (probeLoop envParked ([] : List String)).2) :=
  ⟨(business_card_probe_requests envNoDns "p" "b").2.2.1 "https://a" ["https://b"]
      "no network" rfl,
   (business_card_probe_requests envParked "p" "b").2.2.2.1 "https://a" []
      ⟨404, "not found"⟩ rfl (by decide)⟩

/-! ## NAPTR record selection (C6) -/

lemma naptrLt_irrefl (x : DNSRecord) : naptrLt x x = false := by
  simp [naptrLt]

lemma naptrLt_trans {x y z : DNSRecord} (h1 : naptrLt x y = true)
    (h2 : naptrLt y z = true) : naptrLt x z = true := by
  simp only [naptrLt] at h1 h2 ⊢
  split_ifs at h1 h2 ⊢ <;>
    simp only [decide_eq_true_eq, decide_eq_false_iff_not] at * <;> omega

lemma naptrLt_asymm {x y : DNSRecord} (h : naptrLt x y = true) :
    naptrLt y x = false := by
  simp only [naptrLt] at h ⊢
  split_ifs at h ⊢ <;>
    simp only [decide_eq_true_eq, decide_eq_false_iff_not] at * <;> omega

lemma naptrLt_neg_trans {x y z : DNSRecord} (h1 : naptrLt x y = false)
    (h2 : naptrLt y z = false) : naptrLt x z = false := by
  simp only [naptrLt] at h1 h2 ⊢
  split_ifs at h1 h2 ⊢ <;>
    simp only [decide_eq_true_eq, decide_eq_false_iff_not] at * <;> omega

lemma insertStable_ne_nil {α : Type} (lt : α → α → Bool) (x : α) (l : List α) :
    insertStable lt x l ≠ [] := by
  cases l with
  | nil => simp [insertStable]
  | cons y ys =>
      rw [insertStable]
      split <;> simp

lemma sortStable_eq_nil {α : Type} {lt : α → α → Bool} {xs : List α}
    (h : sortStable lt xs = []) : xs = [] := by
  cases xs with
  | nil => rfl
  | cons x xs =>
      rw [sortStable] at h
      exact absurd h (insertStable_ne_nil _ _ _)

lemma mem_insertStable {α : Type} {lt : α → α → Bool} {a x : α} :
    ∀ {l : List α}, x ∈ insertStable lt a l → x = a ∨ x ∈ l := by
  intro l
  induction l with
  | nil =>
      intro h
      rw [insertStable] at h
      simpa using h
  | cons y ys ih =>
      intro h
      rw [insertStable] at h
      by_cases hc : lt y a = true
      · rw [if_pos hc] at h
        rcases List.mem_cons.mp h with rfl | h2
        · exact Or.inr (List.mem_cons_self _ _)
        · rcases ih h2 with h3 | h3
          · exact Or.inl h3
          · exact Or.inr (List.mem_cons_of_mem _ h3)
      · rw [if_neg hc] at h
        rcases List.mem_cons.mp h with rfl | h2
        · exact Or.inl rfl
        · exact Or.inr h2

lemma mem_sortStable {α : Type} {lt : α → α → Bool} {x : α} :
    ∀ {l : List α}, x ∈ sortStable lt l → x ∈ l := by
  intro l
  induction l with
  | nil =>
      intro h
      rw [sortStable] at h
      simp at h
  | cons y ys ih =>
      intro h
      rw [sortStable] at h
      rcases mem_insertStable h with rfl | h2
      · exact List.mem_cons_self _ _
      · exact List.mem_cons_of_mem _ (ih h2)

lemma naptrComb_assoc (a m x : DNSRecord) :
    (if naptrLt x (if naptrLt m a = true then m else a) = true then x
      else if naptrLt m a = true then m else a) =
    (if naptrLt (if naptrLt x m = true then x else m) a = true
      then (if naptrLt x m = true then x else m) else a) := by
  by_cases h1 : naptrLt m a = true
  · rw [if_pos h1]
    by_cases h2 : naptrLt x m = true
    · rw [if_pos h2, if_pos (naptrLt_trans h2 h1)]
    · rw [if_neg h2, if_pos h1]
  · rw [if_neg h1]
    by_cases h2 : naptrLt x m = true
    · rw [if_pos h2]
    · have h2f : naptrLt x m = false := by
        cases hxm : naptrLt x m
        · rfl
        · exact absurd hxm h2
      have h1f : naptrLt m a = false := by
        cases hma : naptrLt m a
        · rfl
        · exact absurd hma h1
      rw [if_neg h2, if_neg h1, if_neg (by
        rw [naptrLt_neg_trans h2f h1f]
        exact Bool.false_ne_true)]

lemma lminBy_seed (xs : List DNSRecord) : ∀ a m,
    lminBy naptrLt (if naptrLt m a = true then m else a) xs =
      if naptrLt (lminBy naptrLt m xs) a = true then lminBy naptrLt m xs else a := by
  induction xs with
  | nil => intro a m; rfl
  | cons x xs ih =>
      intro a m
      show lminBy naptrLt
          (if naptrLt x (if naptrLt m a = true then m else a) = true then x
            else if naptrLt m a = true then m else a) xs =
        if naptrLt (lminBy naptrLt (if naptrLt x m = true then x else m) xs) a = true
          then lminBy naptrLt (if naptrLt x m = true then x else m) xs else a
      rw [naptrComb_assoc]
      exact ih a (if naptrLt x m = true then x else m)

lemma lminBy_min : ∀ (xs : List DNSRecord) (m x : DNSRecord),
    (x = m ∨ x ∈ xs) → naptrLt x (lminBy naptrLt m xs) = false := by
  intro xs
  induction xs with
  | nil =>
      intro m x hx
      rcases hx with rfl | hx
      · exact naptrLt_irrefl x
      · simp at hx
  | cons y ys ih =>
      intro m x hx
      show naptrLt x (lminBy naptrLt (if naptrLt y m = true then y else m) ys) = false
      by_cases hc : naptrLt y m = true
      · rw [if_pos hc]
        rcases hx with rfl | hx
        · exact naptrLt_neg_trans (naptrLt_asymm hc) (ih y y (Or.inl rfl))
        · rcases List.mem_cons.mp hx with rfl | hx2
          · exact ih x x (Or.inl rfl)
          · exact ih y x (Or.inr hx2)
      · rw [if_neg hc]
        have hcf : naptrLt y m = false := by
          cases hym : naptrLt y m
          · rfl
          · exact absurd hym hc
        rcases hx with rfl | hx
        · exact ih x x (Or.inl rfl)
        · rcases List.mem_cons.mp hx with rfl | hx2
          · exact naptrLt_neg_trans hcf (ih m m (Or.inl rfl))
          · exact ih m x (Or.inr hx2)

lemma sortStable_head_leftmostMin (l : List DNSRecord) :
    (sortStable naptrLt l).head? = leftmostMin naptrLt l := by
  induction l with
  | nil => rfl
  | cons a xs ih =>
      rcases hs : sortStable naptrLt xs with - | ⟨h1, t⟩
      · have hxs : xs = [] := sortStable_eq_nil hs
        subst hxs
        rfl
      · rw [hs] at ih
        cases xs with
        | nil =>
            rw [sortStable] at hs
            exact absurd hs (by simp)
        | cons x0 xs2 =>
            have hh : h1 = lminBy naptrLt x0 xs2 := by
              simp only [List.head?_cons, leftmostMin] at ih
              exact Option.some.inj ih
            show (insertStable naptrLt a (sortStable naptrLt (x0 :: xs2))).head? = _
            rw [hs, insertStable]
            by_cases hc : naptrLt h1 a = true
            · rw [if_pos hc]
              show some h1 =
                some (lminBy naptrLt (if naptrLt x0 a = true then x0 else a) xs2)
              rw [lminBy_seed, ← hh, if_pos hc]
            · rw [if_neg hc]
              show some a =
                some (lminBy naptrLt (if naptrLt x0 a = true then x0 else a) xs2)
              rw [lminBy_seed, ← hh, if_neg hc]

/-- C6 (amended): `DoHResolver.extractSMPUrl` filters to case-insensitive
`Meta:SMP` records, stable-sorts by order then preference (the selected
record is the first, in document order, among the minimal ones, a member
of the input with minimal key), and returns a URL iff the JavaScript
regexp `/!(.*)!(.*)!/` matches the selected record's nonempty regexp
field — group 2 is the text between the LAST two `'!'` of the first
line-terminator-free run holding at least three `'!'`; the regexp need
not have the overall shape `!PATTERN!REPLACEMENT!` — and that group
parses as an http/https URL with no userinfo, query or fragment. -/
theorem extract_smp_url_selection (records : List DNSRecord) (url : String) :
    (extractSMPUrlDoH records = some url ↔
      ∃ first rest,
        sortStable naptrLt (records.filter
          (fun r => asciiLowerStr r.service == "meta:smp")) = first :: rest ∧
        first.regexp ≠ "" ∧
        bangMatch2 first.regexp.data = some url.data ∧
        isValidSMPUrl url = true) ∧
    ((sortStable naptrLt (records.filter
        (fun r => asciiLowerStr r.service == "meta:smp"))).head? =
      leftmostMin naptrLt (records.filter
        (fun r => asciiLowerStr r.service == "meta:smp"))) ∧
    (∀ first rest,
      sortStable naptrLt (records.filter
        (fun r => asciiLowerStr r.service == "meta:smp")) = first :: rest →
      first ∈ records ∧ asciiLowerStr first.service = "meta:smp" ∧
      ∀ r ∈ records, asciiLowerStr r.service = "meta:smp" →
        naptrLt r first = false) ∧
    (extractSMPUrlDoH records = some url →
      ∃ w, urlParse url = some w ∧
        (w.protocol = "https:" ∨ w.protocol = "http:") ∧
        w.username = "" ∧ w.password = "" ∧ w.search = "" ∧ w.frag = "") := by
  have hiff : extractSMPUrlDoH records = some url ↔
      ∃ first rest,
        sortStable naptrLt (records.filter
          (fun r => asciiLowerStr r.service == "meta:smp")) = first :: rest ∧
        first.regexp ≠ "" ∧
        bangMatch2 first.regexp.data = some url.data ∧
        isValidSMPUrl url = true := by
    constructor
    · intro h
      rcases hs : sortStable naptrLt (records.filter
          (fun r => asciiLowerStr r.service == "meta:smp")) with - | ⟨first, rest⟩
      · simp only [extractSMPUrlDoH, extractSMPUrlCore, hs] at h
        exact absurd h (by simp)
      · simp only [extractSMPUrlDoH, extractSMPUrlCore, hs] at h
        by_cases hre : first.regexp = ""
        · rw [if_pos hre] at h
          exact absurd h (by simp)
        · rw [if_neg hre] at h
          rcases hb : bangMatch2 first.regexp.data with - | repl
          · simp only [hb] at h
            exact absurd h (by simp)
          · simp only [hb] at h
            by_cases hv : isValidSMPUrl ⟨repl⟩ = true
            · rw [if_pos hv] at h
              have hru : (⟨repl⟩ : String) = url := Option.some.inj h
              refine ⟨first, rest, rfl, hre, ?_, ?_⟩
              · rw [hb, ← hru]
              · rw [← hru]
                exact hv
            · rw [if_neg hv] at h
              exact absurd h (by simp)
    · rintro ⟨first, rest, hs, hre, hb, hv⟩
      simp only [extractSMPUrlDoH, extractSMPUrlCore, hs]
      rw [if_neg hre]
      simp only [hb]
      simp only [show (⟨url.data⟩ : String) = url from rfl]
      rw [if_pos hv]
  refine ⟨hiff, sortStable_head_leftmostMin _, ?_, ?_⟩
  · intro first rest hs
    have hmem0 : first ∈ sortStable naptrLt (records.filter
        (fun r => asciiLowerStr r.service == "meta:smp")) := by
      rw [hs]
      exact List.mem_cons_self _ _
    have hmem : first ∈ records.filter
        (fun r => asciiLowerStr r.service == "meta:smp") := mem_sortStable hmem0
    have h1 : first ∈ records := (List.mem_filter.mp hmem).1
    have h2 : asciiLowerStr first.service = "meta:smp" := by
      have := (List.mem_filter.mp hmem).2
      simpa using this
    refine ⟨h1, h2, ?_⟩
    intro r hr hserv
    have hrf : r ∈ records.filter (fun r => asciiLowerStr r.service == "meta:smp") :=
      List.mem_filter.mpr ⟨hr, by simp [hserv]⟩
    have hhead := sortStable_head_leftmostMin
      (records.filter (fun r => asciiLowerStr r.service == "meta:smp"))
    rw [hs] at hhead
    cases hflt : records.filter (fun r => asciiLowerStr r.service == "meta:smp") with
    | nil =>
        rw [hflt] at hrf
        simp at hrf
    | cons x0 xs2 =>
        rw [hflt] at hhead hrf
        simp only [List.head?_cons, leftmostMin] at hhead
        have hfst : first = lminBy naptrLt x0 xs2 := Option.some.inj hhead
        rw [hfst]
        rcases List.mem_cons.mp hrf with rfl | hmem2
        · exact lminBy_min xs2 r r (Or.inl rfl)
        · exact lminBy_min xs2 x0 r (Or.inr hmem2)
  · intro h
    obtain ⟨-, -, -, -, -, hv⟩ := hiff.mp h
    exact isValidSMPUrl_iff.mp hv

/-- Witness for C6 (amended) at a one-record list. -/
theorem extract_smp_url_selection_witness :
    recPlain ∈ [recPlain] ∧ asciiLowerStr recPlain.service = "meta:smp" ∧
    (∀ r ∈ [recPlain], asciiLowerStr r.service = "meta:smp" →
      naptrLt r recPlain = false) :=
  (extract_smp_url_selection [recPlain] "http://smp.example.com").2.2.1
    recPlain [] (by decide)

/-- Counterexample to C6 as stated: a regexp field that is NOT of the
overall form `!PATTERN!REPLACEMENT!` (it starts with `'x'`, not `'!'`)
still yields a URL, because the JavaScript regexp matches anywhere in the
string. -/
theorem bang_regexp_shape_counterexample :
    extractSMPUrlDoH [⟨100, 10, "U", "Meta:SMP",
        "x!^.*$!http://smp.example.com!", ""⟩] = some "http://smp.example.com" ∧
    "x!^.*$!http://smp.example.com!".data.head? ≠ some '!' := by
  constructor <;> decide

/-! ## Base32 refinement (C1) -/

lemma and31 (x : Nat) : x &&& 31 = x % 32 := by
  have := Nat.and_pow_two_sub_one_eq_mod x 5
  norm_num at this
  exact this

lemma and1 (x : Nat) : x &&& 1 = x % 2 := by
  simpa using Nat.and_pow_two_sub_one_eq_mod x 1

lemma and255 (x : Nat) : x &&& 255 = x % 256 := by
  have := Nat.and_pow_two_sub_one_eq_mod x 8
  norm_num at this
  exact this

lemma or8 (a b : Nat) (h : b < 256) : (a <<< 8) ||| b = a * 256 + b := by
  have h' : b < 2 ^ 8 := by norm_num at *; exact h
  rw [Nat.shiftLeft_eq, Nat.mul_comm a (2 ^ 8), ← Nat.mul_add_lt_is_or h' a]

lemma chunkGo_fuel {α : Type} (n : Nat) :
    ∀ (f1 f2 : Nat) (l : List α), l.length ≤ f1 → l.length ≤ f2 →
      chunkGo n f1 l = chunkGo n f2 l := by
  intro f1
  induction f1 with
  | zero =>
      intro f2 l h1 h2
      cases l with
      | nil => cases f2 <;> rfl
      | cons x xs => simp at h1
  | succ f ih =>
      intro f2 l h1 h2
      cases l with
      | nil => cases f2 <;> rfl
      | cons x xs =>
          cases f2 with
          | zero => simp at h2
          | succ f2 =>
              rw [chunkGo, chunkGo]
              congr 1
              exact ih f2 (xs.drop n)
                (by rw [List.length_drop]; simp at h1; omega)
                (by rw [List.length_drop]; simp at h2; omega)

lemma chunkSucc_cons5 {α : Type} (a b c d e : α) (l : List α) :
    chunkSucc 4 (a :: b :: c :: d :: e :: l) = [a, b, c, d, e] :: chunkSucc 4 l := by
  show (a :: [b, c, d, e]) :: chunkGo 4 (l.length + 4) l = [a, b, c, d, e] :: chunkGo 4 l.length l
  congr 1
  exact chunkGo_fuel 4 (l.length + 4) l.length l (by omega) (Nat.le_refl _)

lemma chunkGo4_len {α : Type} :
    ∀ (f : Nat) (l : List α), l.length ≤ f →
      (chunkGo 4 f l).length = (l.length + 4) / 5 := by
  intro f
  induction f with
  | zero =>
      intro l h
      cases l with
      | nil => simp [chunkGo]
      | cons x xs => simp at h
  | succ f ih =>
      intro l h
      cases l with
      | nil => simp [chunkGo]
      | cons x xs =>
          rw [chunkGo]
          simp only [List.length_cons]
          rw [ih (xs.drop 4) (by rw [List.length_drop]; simp at h; omega)]
          rw [List.length_drop]
          omega

lemma flatMap_byteBits_len (l : List Nat) : (l.flatMap byteBits).length = 8 * l.length := by
  induction l with
  | nil => rfl
  | cons b bs ih =>
      simp only [List.flatMap_cons, List.length_append, ih, byteBits, List.length_cons]
      simp
      omega

lemma wordBytes_lt (w : Nat) : ∀ x ∈ wordBytes w, x < 256 := by
  intro x hx
  simp only [wordBytes, List.mem_cons, List.not_mem_nil, or_false] at hx
  rcases hx with rfl | rfl | rfl | rfl <;> (rw [and255]; omega)

lemma sha256_lt (msg : List Nat) : ∀ b ∈ sha256 msg, b < 256 := by
  intro b hb
  simp only [sha256] at hb
  rcases List.mem_append.mp hb with hb | h
  · rcases List.mem_append.mp hb with hb | h
    · rcases List.mem_append.mp hb with hb | h
      · rcases List.mem_append.mp hb with hb | h
        · rcases List.mem_append.mp hb with hb | h
          · rcases List.mem_append.mp hb with hb | h
            · rcases List.mem_append.mp hb with hb | h
              · exact wordBytes_lt _ b hb
              · exact wordBytes_lt _ b h
            · exact wordBytes_lt _ b h
          · exact wordBytes_lt _ b h
        · exact wordBytes_lt _ b h
      · exact wordBytes_lt _ b h
    · exact wordBytes_lt _ b h
  · exact wordBytes_lt _ b h

lemma sha256_len (msg : List Nat) : (sha256 msg).length = 32 := by
  simp [sha256, wordBytes]

lemma emit8 (w : Nat) :
    b32EmitWhile w 8 = [b32Alphabet.getD ((w >>> 3) &&& 0x1f) 'A'] := rfl

lemma emit9 (w : Nat) :
    b32EmitWhile w 9 = [b32Alphabet.getD ((w >>> 4) &&& 0x1f) 'A'] := rfl

lemma emit10 (w : Nat) :
    b32EmitWhile w 10 = [b32Alphabet.getD ((w >>> 5) &&& 0x1f) 'A',
      b32Alphabet.getD ((w >>> 0) &&& 0x1f) 'A'] := rfl

lemma emit11 (w : Nat) :
    b32EmitWhile w 11 = [b32Alphabet.getD ((w >>> 6) &&& 0x1f) 'A',
      b32Alphabet.getD ((w >>> 1) &&& 0x1f) 'A'] := rfl

lemma emit12 (w : Nat) :
    b32EmitWhile w 12 = [b32Alphabet.getD ((w >>> 7) &&& 0x1f) 'A',
      b32Alphabet.getD ((w >>> 2) &&& 0x1f) 'A'] := rfl

lemma b32Loop_cons_fst (b : Nat) (bs : List Nat) (value bits : Nat) :
    (b32Loop (b :: bs) value bits).1 =
      b32EmitWhile (((value <<< 8) ||| b) % m32) (bits + 8) ++
        (b32Loop bs (((value <<< 8) ||| b) % m32) ((bits + 8) % 5)).1 := rfl

lemma b32Loop_cons_snd (b : Nat) (bs : List Nat) (value bits : Nat) :
    (b32Loop (b :: bs) value bits).2 =
      (b32Loop bs (((value <<< 8) ||| b) % m32) ((bits + 8) % 5)).2 := rfl

set_option maxHeartbeats 2000000 in
/-- The loop of `base32Encode` agrees with RFC 4648 bit-stream chunking:
processing `bytes` after `pending` leftover bits emits exactly the 5-bit
groups of `pending ++ bits-of-bytes` (the trailing partial group coming
from the final `if (bits > 0)` character). -/
lemma b32Loop_spec :
    ∀ (bytes pending : List Nat) (value : Nat),
      (∀ b ∈ bytes, b < 256) → (∀ x ∈ pending, x ≤ 1) → pending.length < 5 →
      value % 2 ^ pending.length = bitsVal pending →
      (b32Loop bytes value pending.length).1 ++
        b32Tail (b32Loop bytes value pending.length).2 =
      (chunkSucc 4 (pending ++ bytes.flatMap byteBits)).map specB32Char := by
  intro bytes
  induction bytes with
  | nil =>
      intro pending value _ hp hlen hv
      rcases pending with - | ⟨p0, - | ⟨p1, - | ⟨p2, - | ⟨p3, - | ⟨p4, prest⟩⟩⟩⟩⟩
      · rfl
      · have hp0 : p0 ≤ 1 := hp p0 (by simp)
        simp only [List.length_cons, List.length_nil, bitsVal, List.foldl_cons,
          List.foldl_nil, Nat.reduceAdd, Nat.reducePow] at hv
        show [b32Alphabet.getD ((value <<< (5 - 1)) &&& 0x1f) 'A'] =
          [b32Alphabet.getD (bitsVal [p0] <<< (5 - ([p0] : List Nat).length)) 'A']
        refine congrArg (fun i => [b32Alphabet.getD i 'A']) ?_
        simp only [bitsVal, List.foldl_cons, List.foldl_nil, List.length_cons,
          List.length_nil, Nat.shiftLeft_eq, and31, Nat.reduceAdd, Nat.reduceSub,
          Nat.reducePow]
        omega
      · have hp0 : p0 ≤ 1 := hp p0 (by simp)
        have hp1 : p1 ≤ 1 := hp p1 (by simp)
        simp only [List.length_cons, List.length_nil, bitsVal, List.foldl_cons,
          List.foldl_nil, Nat.reduceAdd, Nat.reducePow] at hv
        show [b32Alphabet.getD ((value <<< (5 - 2)) &&& 0x1f) 'A'] =
          [b32Alphabet.getD
            (bitsVal [p0, p1] <<< (5 - ([p0, p1] : List Nat).length)) 'A']
        refine congrArg (fun i => [b32Alphabet.getD i 'A']) ?_
        simp only [bitsVal, List.foldl_cons, List.foldl_nil, List.length_cons,
          List.length_nil, Nat.shiftLeft_eq, and31, Nat.reduceAdd, Nat.reduceSub,
          Nat.reducePow]
        omega
      · have hp0 : p0 ≤ 1 := hp p0 (by simp)
        have hp1 : p1 ≤ 1 := hp p1 (by simp)
        have hp2 : p2 ≤ 1 := hp p2 (by simp)
        simp only [List.length_cons, List.length_nil, bitsVal, List.foldl_cons,
          List.foldl_nil, Nat.reduceAdd, Nat.reducePow] at hv
        show [b32Alphabet.getD ((value <<< (5 - 3)) &&& 0x1f) 'A'] =
          [b32Alphabet.getD
            (bitsVal [p0, p1, p2] <<< (5 - ([p0, p1, p2] : List Nat).length)) 'A']
        refine congrArg (fun i => [b32Alphabet.getD i 'A']) ?_
        simp only [bitsVal, List.foldl_cons, List.foldl_nil, List.length_cons,
          List.length_nil, Nat.shiftLeft_eq, and31, Nat.reduceAdd, Nat.reduceSub,
          Nat.reducePow]
        omega
      · have hp0 : p0 ≤ 1 := hp p0 (by simp)
        have hp1 : p1 ≤ 1 := hp p1 (by simp)
        have hp2 : p2 ≤ 1 := hp p2 (by simp)
        have hp3 : p3 ≤ 1 := hp p3 (by simp)
        simp only [List.length_cons, List.length_nil, bitsVal, List.foldl_cons,
          List.foldl_nil, Nat.reduceAdd, Nat.reducePow] at hv
        show [b32Alphabet.getD ((value <<< (5 - 4)) &&& 0x1f) 'A'] =
          [b32Alphabet.getD
            (bitsVal [p0, p1, p2, p3] <<<
              (5 - ([p0, p1, p2, p3] : List Nat).length)) 'A']
        refine congrArg (fun i => [b32Alphabet.getD i 'A']) ?_
        simp only [bitsVal, List.foldl_cons, List.foldl_nil, List.length_cons,
          List.length_nil, Nat.shiftLeft_eq, and31, Nat.reduceAdd, Nat.reduceSub,
          Nat.reducePow]
        omega
      · simp only [List.length_cons] at hlen
        omega
  | cons b bs ih =>
      intro pending value hb hp hlen hv
      have hb0 : b < 256 := hb b (List.mem_cons_self _ _)
      have hbs : ∀ x ∈ bs, x < 256 := fun x hx => hb x (List.mem_cons_of_mem _ hx)
      have hV : ((value <<< 8) ||| b) % m32 = (value * 256 + b) % 4294967296 := by
        rw [or8 value b hb0]
        rfl
      rcases pending with - | ⟨p0, - | ⟨p1, - | ⟨p2, - | ⟨p3, - | ⟨p4, prest⟩⟩⟩⟩⟩
      · -- no leftover bits: one character, three bits carried
        have hih := ih [(b >>> 2) &&& 1, (b >>> 1) &&& 1, b &&& 1]
          (((value <<< 8) ||| b) % m32) hbs
          (by
            intro x hx
            simp only [List.mem_cons, List.not_mem_nil, or_false] at hx
            rcases hx with rfl | rfl | rfl <;> (rw [and1]; omega))
          (by simp)
          (by
            rw [hV]
            simp only [bitsVal, List.foldl_cons, List.foldl_nil, List.length_cons,
              List.length_nil, Nat.shiftRight_eq_div_pow, and1, Nat.reduceAdd,
              Nat.reducePow]
            omega)
        simp only [List.length_cons, List.length_nil, Nat.reduceAdd,
          List.cons_append, List.nil_append] at hih
        simp only [List.length_nil]
        rw [b32Loop_cons_fst, b32Loop_cons_snd]
        simp only [Nat.reduceAdd, Nat.reduceMod]
        rw [emit8]
        simp only [List.cons_append, List.nil_append]
        rw [hih]
        rw [show (b :: bs).flatMap byteBits =
          ((b >>> 7) &&& 1) :: ((b >>> 6) &&& 1) :: ((b >>> 5) &&& 1) ::
          ((b >>> 4) &&& 1) :: ((b >>> 3) &&& 1) ::
          (((b >>> 2) &&& 1) :: ((b >>> 1) &&& 1) :: (b &&& 1) ::
            bs.flatMap byteBits) from rfl]
        rw [chunkSucc_cons5, List.map_cons]
        congr 1
        rw [specB32Char]
        refine congrArg (fun i => b32Alphabet.getD i 'A') ?_
        rw [hV]
        simp only [bitsVal, List.foldl_cons, List.foldl_nil, List.length_cons,
          List.length_nil, Nat.shiftRight_eq_div_pow, Nat.shiftLeft_eq, and31, and1,
          Nat.reduceAdd, Nat.reduceSub, Nat.reducePow]
        omega
      · -- one leftover bit: one character, four bits carried
        have hp0 : p0 ≤ 1 := hp p0 (by simp)
        simp only [List.length_cons, List.length_nil, bitsVal, List.foldl_cons,
          List.foldl_nil, Nat.reduceAdd, Nat.reducePow] at hv
        have hih := ih [(b >>> 3) &&& 1, (b >>> 2) &&& 1, (b >>> 1) &&& 1, b &&& 1]
          (((value <<< 8) ||| b) % m32) hbs
          (by
            intro x hx
            simp only [List.mem_cons, List.not_mem_nil, or_false] at hx
            rcases hx with rfl | rfl | rfl | rfl <;> (rw [and1]; omega))
          (by simp)
          (by
            rw [hV]
            simp only [bitsVal, List.foldl_cons, List.foldl_nil, List.length_cons,
              List.length_nil, Nat.shiftRight_eq_div_pow, and1, Nat.reduceAdd,
              Nat.reducePow]
            omega)
        simp only [List.length_cons, List.length_nil, Nat.reduceAdd,
          List.cons_append, List.nil_append] at hih
        simp only [List.length_cons, List.length_nil, Nat.reduceAdd]
        rw [b32Loop_cons_fst, b32Loop_cons_snd]
        simp only [Nat.reduceAdd, Nat.reduceMod]
        rw [emit9]
        simp only [List.cons_append, List.nil_append]
        rw [hih]
        rw [show p0 :: (b :: bs).flatMap byteBits =
          p0 :: ((b >>> 7) &&& 1) :: ((b >>> 6) &&& 1) :: ((b >>> 5) &&& 1) ::
          ((b >>> 4) &&& 1) ::
          (((b >>> 3) &&& 1) :: ((b >>> 2) &&& 1) :: ((b >>> 1) &&& 1) :: (b &&& 1) ::
            bs.flatMap byteBits) from rfl]
        rw [chunkSucc_cons5, List.map_cons]
        congr 1
        rw [specB32Char]
        refine congrArg (fun i => b32Alphabet.getD i 'A') ?_
        rw [hV]
        simp only [bitsVal, List.foldl_cons, List.foldl_nil, List.length_cons,
          List.length_nil, Nat.shiftRight_eq_div_pow, Nat.shiftLeft_eq, and31, and1,
          Nat.reduceAdd, Nat.reduceSub, Nat.reducePow]
        omega
      · -- two leftover bits: two characters, none carried
        have hp0 : p0 ≤ 1 := hp p0 (by simp)
        have hp1 : p1 ≤ 1 := hp p1 (by simp)
        simp only [List.length_cons, List.length_nil, bitsVal, List.foldl_cons,
          List.foldl_nil, Nat.reduceAdd, Nat.reducePow] at hv
        have hih := ih [] (((value <<< 8) ||| b) % m32) hbs
          (by simp) (by simp)
          (by simp [bitsVal, Nat.mod_one])
        simp only [List.length_nil, List.nil_append] at hih
        simp only [List.length_cons, List.length_nil, Nat.reduceAdd]
        rw [b32Loop_cons_fst, b32Loop_cons_snd]
        simp only [Nat.reduceAdd, Nat.reduceMod]
        rw [emit10]
        simp only [List.cons_append, List.nil_append]
        rw [hih]
        rw [show p0 :: p1 :: (b :: bs).flatMap byteBits =
          p0 :: p1 :: ((b >>> 7) &&& 1) :: ((b >>> 6) &&& 1) :: ((b >>> 5) &&& 1) ::
          (((b >>> 4) &&& 1) :: ((b >>> 3) &&& 1) :: ((b >>> 2) &&& 1) ::
            ((b >>> 1) &&& 1) :: (b &&& 1) :: bs.flatMap byteBits) from rfl]
        rw [chunkSucc_cons5, chunkSucc_cons5, List.map_cons, List.map_cons]
        congr 1
        · rw [specB32Char]
          refine congrArg (fun i => b32Alphabet.getD i 'A') ?_
          rw [hV]
          simp only [bitsVal, List.foldl_cons, List.foldl_nil, List.length_cons,
            List.length_nil, Nat.shiftRight_eq_div_pow, Nat.shiftLeft_eq, and31, and1,
            Nat.reduceAdd, Nat.reduceSub, Nat.reducePow]
          omega
        congr 1
        rw [specB32Char]
        refine congrArg (fun i => b32Alphabet.getD i 'A') ?_
        rw [hV]
        simp only [bitsVal, List.foldl_cons, List.foldl_nil, List.length_cons,
          List.length_nil, Nat.shiftRight_eq_div_pow, Nat.shiftLeft_eq, and31, and1,
          Nat.reduceAdd, Nat.reduceSub, Nat.reducePow]
        omega
      · -- three leftover bits: two characters, one bit carried
        have hp0 : p0 ≤ 1 := hp p0 (by simp)
        have hp1 : p1 ≤ 1 := hp p1 (by simp)
        have hp2 : p2 ≤ 1 := hp p2 (by simp)
        simp only [List.length_cons, List.length_nil, bitsVal, List.foldl_cons,
          List.foldl_nil, Nat.reduceAdd, Nat.reducePow] at hv
        have hih := ih [b &&& 1] (((value <<< 8) ||| b) % m32) hbs
          (by
            intro x hx
            simp only [List.mem_cons, List.not_mem_nil, or_false] at hx
            rcases hx with rfl <;> (rw [and1]; omega))
          (by simp)
          (by
            rw [hV]
            simp only [bitsVal, List.foldl_cons, List.foldl_nil, List.length_cons,
              List.length_nil, and1, Nat.reduceAdd, Nat.reducePow]
            omega)
        simp only [List.length_cons, List.length_nil, Nat.reduceAdd,
          List.cons_append, List.nil_append] at hih
        simp only [List.length_cons, List.length_nil, Nat.reduceAdd]
        rw [b32Loop_cons_fst, b32Loop_cons_snd]
        simp only [Nat.reduceAdd, Nat.reduceMod]
        rw [emit11]
        simp only [List.cons_append, List.nil_append]
        rw [hih]
        rw [show p0 :: p1 :: p2 :: (b :: bs).flatMap byteBits =
          p0 :: p1 :: p2 :: ((b >>> 7) &&& 1) :: ((b >>> 6) &&& 1) ::
          (((b >>> 5) &&& 1) :: ((b >>> 4) &&& 1) :: ((b >>> 3) &&& 1) ::
            ((b >>> 2) &&& 1) :: ((b >>> 1) &&& 1) ::
            ((b &&& 1) :: bs.flatMap byteBits)) from rfl]
        rw [chunkSucc_cons5, chunkSucc_cons5, List.map_cons, List.map_cons]
        congr 1
        · rw [specB32Char]
          refine congrArg (fun i => b32Alphabet.getD i 'A') ?_
          rw [hV]
          simp only [bitsVal, List.foldl_cons, List.foldl_nil, List.length_cons,
            List.length_nil, Nat.shiftRight_eq_div_pow, Nat.shiftLeft_eq, and31, and1,
            Nat.reduceAdd, Nat.reduceSub, Nat.reducePow]
          omega
        congr 1
        rw [specB32Char]
        refine congrArg (fun i => b32Alphabet.getD i 'A') ?_
        rw [hV]
        simp only [bitsVal, List.foldl_cons, List.foldl_nil, List.length_cons,
          List.length_nil, Nat.shiftRight_eq_div_pow, Nat.shiftLeft_eq, and31, and1,
          Nat.reduceAdd, Nat.reduceSub, Nat.reducePow]
        omega
      · -- four leftover bits: two characters, two bits carried
        have hp0 : p0 ≤ 1 := hp p0 (by simp)
        have hp1 : p1 ≤ 1 := hp p1 (by simp)
        have hp2 : p2 ≤ 1 := hp p2 (by simp)
        have hp3 : p3 ≤ 1 := hp p3 (by simp)
        simp only [List.length_cons, List.length_nil, bitsVal, List.foldl_cons,
          List.foldl_nil, Nat.reduceAdd, Nat.reducePow] at hv
        have hih := ih [(b >>> 1) &&& 1, b &&& 1] (((value <<< 8) ||| b) % m32) hbs
          (by
            intro x hx
            simp only [List.mem_cons, List.not_mem_nil, or_false] at hx
            rcases hx with rfl | rfl <;> (rw [and1]; omega))
          (by simp)
          (by
            rw [hV]
            simp only [bitsVal, List.foldl_cons, List.foldl_nil, List.length_cons,
              List.length_nil, Nat.shiftRight_eq_div_pow, and1, Nat.reduceAdd,
              Nat.reducePow]
            omega)
        simp only [List.length_cons, List.length_nil, Nat.reduceAdd,
          List.cons_append, List.nil_append] at hih
        simp only [List.length_cons, List.length_nil, Nat.reduceAdd]
        rw [b32Loop_cons_fst, b32Loop_cons_snd]
        simp only [Nat.reduceAdd, Nat.reduceMod]
        rw [emit12]
        simp only [List.cons_append, List.nil_append]
        rw [hih]
        rw [show p0 :: p1 :: p2 :: p3 :: (b :: bs).flatMap byteBits =
          p0 :: p1 :: p2 :: p3 :: ((b >>> 7) &&& 1) ::
          (((b >>> 6) &&& 1) :: ((b >>> 5) &&& 1) :: ((b >>> 4) &&& 1) ::
            ((b >>> 3) &&& 1) :: ((b >>> 2) &&& 1) ::
            (((b >>> 1) &&& 1) :: (b &&& 1) :: bs.flatMap byteBits)) from rfl]
        rw [chunkSucc_cons5, chunkSucc_cons5, List.map_cons, List.map_cons]
        congr 1
        · rw [specB32Char]
          refine congrArg (fun i => b32Alphabet.getD i 'A') ?_
          rw [hV]
          simp only [bitsVal, List.foldl_cons, List.foldl_nil, List.length_cons,
            List.length_nil, Nat.shiftRight_eq_div_pow, Nat.shiftLeft_eq, and31, and1,
            Nat.reduceAdd, Nat.reduceSub, Nat.reducePow]
          omega
        congr 1
        rw [specB32Char]
        refine congrArg (fun i => b32Alphabet.getD i 'A') ?_
        rw [hV]
        simp only [bitsVal, List.foldl_cons, List.foldl_nil, List.length_cons,
          List.length_nil, Nat.shiftRight_eq_div_pow, Nat.shiftLeft_eq, and31, and1,
          Nat.reduceAdd, Nat.reduceSub, Nat.reducePow]
        omega
      · simp only [List.length_cons] at hlen
        omega

/-- `base32Encode` refines the RFC 4648 description on byte inputs. -/
lemma base32Encode_spec (l : List Nat) (h : ∀ b ∈ l, b < 256) :
    base32Encode l = specBase32 l := by
  have hmain := b32Loop_spec l [] 0 h (by simp) (by simp) (by simp [bitsVal, Nat.mod_one])
  simp only [List.length_nil, List.nil_append] at hmain
  rw [base32Encode, specBase32]
  rcases hbl : b32Loop l 0 0 with ⟨chars, value, bits⟩
  rw [hbl] at hmain
  dsimp only at hmain ⊢
  congr 1
  rw [← hmain]
  have htail : b32Tail (value, bits) =
      if 0 < bits then [b32Alphabet.getD ((value <<< (5 - bits)) &&& 0x1f) 'A']
      else [] := rfl
  rw [htail]
  by_cases hbit : 0 < bits
  · rw [if_pos hbit, if_pos hbit]
  · rw [if_neg hbit, if_neg hbit, List.append_nil]

lemma alphabet_low_ne_pad (i : Nat) :
    (asciiLowerChar (b32Alphabet.getD i 'A') == '=') = false := by
  have hall : ∀ c ∈ b32Alphabet, (asciiLowerChar c == '=') = false := by decide
  rcases Nat.lt_or_ge i 32 with h | h
  · exact hall _ (by
      rw [List.getD_eq_getElem b32Alphabet 'A' (show i < b32Alphabet.length by
        simpa [b32Alphabet] using h)]
      exact List.getElem_mem _)
  · rw [List.getD_eq_default b32Alphabet 'A' (show b32Alphabet.length ≤ i by
      simpa [b32Alphabet] using h)]
    decide

lemma dropWhile_false_of_head {p : Char → Bool} {l : List Char}
    (h : ∀ c ∈ l, p c = false) : l.dropWhile p = l := by
  cases l with
  | nil => rfl
  | cons x xs => exact dropWhile_cons_false (h x (List.mem_cons_self _ _))

lemma stripTrailingEq_append_pad (Y : List Char) (k : Nat)
    (h : ∀ c ∈ Y, (c == '=') = false) :
    stripTrailingEq (Y ++ List.replicate k '=') = Y := by
  rw [stripTrailingEq, List.reverse_append, List.reverse_replicate]
  rw [dropWhile_append_all (by
    intro a ha
    rw [List.eq_of_mem_replicate ha]
    rfl)]
  rw [dropWhile_false_of_head (by
    intro c hc
    exact h c (List.mem_reverse.mp hc))]
  exact List.reverse_reverse Y

set_option maxRecDepth 10000 in
/-- C1: `hashParticipantId` is the lowercase RFC 4648 base32 encoding
(alphabet `ABCDEFGHIJKLMNOPQRSTUVWXYZ234567`) of the SHA-256 digest of
the UTF-8 bytes of `scheme ++ ":" ++ value`, with the trailing `'='`
padding removed; every output is 52 characters long, and the known
vector `hash("0843766574", "0208")` checks out. -/
theorem hash_participant_id_base32 (participantId scheme : String) :
    hashParticipantId participantId scheme =
      ⟨stripTrailingEq (asciiLower (specBase32
        (sha256 (utf8Bytes (scheme ++ ":" ++ participantId)))))⟩ ∧
    (hashParticipantId participantId scheme).length = 52 ∧
    hashParticipantId "0843766574" "0208" =
      "cmorzb6cpx7e4wldnu4zxrmczeqaiacq4qds2x7zi5ki4nsxxfma" := by
  have hrefine : hashParticipantId participantId scheme =
      ⟨stripTrailingEq (asciiLower (specBase32
        (sha256 (utf8Bytes (scheme ++ ":" ++ participantId)))))⟩ := by
    simp only [hashParticipantId]
    rw [base32Encode_spec _ (sha256_lt _)]
  refine ⟨hrefine, ?_, by decide⟩
  rw [hrefine]
  show (stripTrailingEq (asciiLower (specBase32
    (sha256 (utf8Bytes (scheme ++ ":" ++ participantId)))))).length = 52
  have hd32 : (sha256 (utf8Bytes (scheme ++ ":" ++ participantId))).length = 32 :=
    sha256_len _
  have hlen256 : ((sha256 (utf8Bytes (scheme ++ ":" ++ participantId))).flatMap
      byteBits).length = 256 := by
    rw [flatMap_byteBits_len, hd32]
  have hchl : ((chunkSucc 4 ((sha256 (utf8Bytes (scheme ++ ":" ++ participantId))).flatMap
      byteBits)).map specB32Char).length = 52 := by
    rw [List.length_map, chunkSucc, chunkGo4_len _ _ (Nat.le_refl _), hlen256]
  have hpad : specBase32 (sha256 (utf8Bytes (scheme ++ ":" ++ participantId))) =
      (chunkSucc 4 ((sha256 (utf8Bytes (scheme ++ ":" ++ participantId))).flatMap
        byteBits)).map specB32Char ++ List.replicate 4 '=' := by
    rw [specBase32, padTo8, hchl]
  rw [hpad, asciiLower, List.map_append, List.map_replicate,
    show asciiLowerChar '=' = '=' from rfl]
  rw [stripTrailingEq_append_pad _ 4 (by
    intro c hc
    obtain ⟨x, hx, rfl⟩ := List.mem_map.mp hc
    obtain ⟨g, hg, rfl⟩ := List.mem_map.mp hx
    rw [specB32Char]
    exact alphabet_low_ne_pad _)]
  rw [List.length_map, hchl]

end SmpResolver
